import Mathlib

/-!
Shallow embedding of the text-processing core of `wiki_scrawler.py`
(WIKI_Scraper repository), together with theorems settling the frozen
claims about it.  Strings are modelled as `List Char` (Python `str` is a
sequence of unicode code points).  Each definition follows the source
function of the same name; regular-expression substitutions are embedded
as the deterministic scan they denote on their concrete patterns.
-/

namespace WikiScraper

/-- Convert a Lean string literal to the `List Char` representation. -/
def str (s : String) : List Char := s.data

/-- Horizontal whitespace characters of the pattern `[ \t ]`. -/
def isHWS (c : Char) : Bool := c = ' ' || c = '\t' || c = '\u00A0'

/-- Python `str` whitespace (the set matched by `\s` and stripped by `str.strip()`). -/
def isPyWS (c : Char) : Bool :=
  c = ' ' || c = '\t' || c = '\n' || c = '\r' || c = '\x0b' || c = '\x0c' ||
  c = '\x1c' || c = '\x1d' || c = '\x1e' || c = '\x1f' || c = '\x85' || c = '\u00A0' ||
  c = '\u1680' || (0x2000 ≤ c.toNat && c.toNat ≤ 0x200A) || c = '\u2028' ||
  c = '\u2029' || c = '\u202F' || c = '\u205F' || c = '\u3000'

/-- Drop matching elements from the end of a list. -/
def dropWhileEnd (p : Char → Bool) (l : List Char) : List Char :=
  (l.reverse.dropWhile p).reverse

/-- Python `str.strip()`. -/
def pyStrip (l : List Char) : List Char :=
  dropWhileEnd isPyWS (l.dropWhile isPyWS)

theorem length_dropWhile_le (p : Char → Bool) (l : List Char) :
    (l.dropWhile p).length ≤ l.length := by
  induction l with
  | nil => simp [List.dropWhile]
  | cons a l ih =>
    by_cases h : p a
    · simp [List.dropWhile, h]; omega
    · simp [List.dropWhile, h]

/-- Step 0 of `zh_tidy`: `re.sub(r"[ \t\u00A0]+", " ", text)`.  The `fuel`
argument only makes the recursion structural (hence kernel-computable);
each step consumes at least one character, so `length + 1` steps always
suffice and the fuel-exhausted branch is never reached. -/
def collapseHWSGo : Nat → List Char → List Char
  | 0, l => l
  | _, [] => []
  | fuel + 1, c :: cs =>
    if isHWS c then ' ' :: collapseHWSGo fuel (cs.dropWhile isHWS)
    else c :: collapseHWSGo fuel cs

/-- `re.sub(r"[ \t\u00A0]+", " ", text)` with sufficient fuel. -/
def collapseHWS (l : List Char) : List Char :=
  collapseHWSGo (l.length + 1) l

/-- ASCII letter test (`[a-zA-Z]`). -/
def isAsciiAlpha (c : Char) : Bool :=
  ('a' ≤ c && c ≤ 'z') || ('A' ≤ c && c ≤ 'Z')

/-- Generic leftmost, non-overlapping `re.sub` scan: `tryM` examines the
remaining input and, on a match, returns the replacement together with the
input that follows the match.  The fuel (always `length + 1` via `scanSub`)
only makes the recursion structural: every embedded pattern consumes at
least one character per match, so the fuel never runs out. -/
def scanSubGo (tryM : List Char → Option (List Char × List Char)) :
    Nat → List Char → List Char
  | 0, l => l
  | _, [] => []
  | fuel + 1, c :: cs =>
    match tryM (c :: cs) with
    | some (repl, rest) => repl ++ scanSubGo tryM fuel rest
    | none => c :: scanSubGo tryM fuel cs

/-- Leftmost non-overlapping substitution scan with sufficient fuel. -/
def scanSub (tryM : List Char → Option (List Char × List Char)) (l : List Char) :
    List Char :=
  scanSubGo tryM (l.length + 1) l

/-- `if pat.isPrefixOf s` then the remainder of `s` after `pat`. -/
def dropPre (pat s : List Char) : Option (List Char) :=
  if pat.isPrefixOf s then some (s.drop pat.length) else none

/-- Brace or backslash specials used by the LaTeX-stripping rules. -/
def isBrace (c : Char) : Bool := c = '\x7b' || c = '\x7d'

mutual

/-- Body scan for `\{\\displaystyle[^{}]*(?:\{[^{}]*\}[^{}]*)*\}` after the
`{\displaystyle` literal: depth-0 text up to the closing `}`, allowing
depth-1 brace groups with no further nesting. -/
def dsBody : List Char → Option (List Char)
  | [] => none
  | c :: r =>
    if c = '\x7d' then some r
    else if c = '\x7b' then dsInner r
    else dsBody r

/-- Inside a depth-1 group: plain text up to its closing `}`. -/
def dsInner : List Char → Option (List Char)
  | [] => none
  | c :: r =>
    if c = '\x7d' then dsBody r
    else if c = '\x7b' then none
    else dsInner r

end

/-- `re.sub(r'\{\\displaystyle[^{}]*(?:\{[^{}]*\}[^{}]*)*\}', '', ...)`. -/
def tryDsBalanced (s : List Char) : Option (List Char × List Char) := do
  let rest ← dropPre (str "\x7b\\displaystyle") s
  let r ← dsBody rest
  some ([], r)

/-- `re.sub(r'\{\\[a-zA-Z]+[^}]*\}', '', ...)`. -/
def tryBraceCmd (s : List Char) : Option (List Char × List Char) :=
  match s with
  | '\x7b' :: '\\' :: t =>
    let l := t.takeWhile isAsciiAlpha
    if l.isEmpty then none
    else
      match (t.drop l.length).dropWhile (· != '\x7d') with
      | '\x7d' :: r => some ([], r)
      | _ => none
  | _ => none

/-- `re.sub(r'\{\\displaystyle.*?(?=\n|$)', '', ...)` (no DOTALL: runs to
the end of the current line). -/
def tryDsTail (s : List Char) : Option (List Char × List Char) := do
  let rest ← dropPre (str "\x7b\\displaystyle") s
  some ([], rest.dropWhile (· != '\n'))

/-- Attempt to match `\\end\{[^}]+\}` at the current position. -/
def tryEndTag (s : List Char) : Option (List Char) := do
  let rest ← dropPre (str "\\end\x7b") s
  let y := rest.takeWhile (· != '\x7d')
  if y.isEmpty then none
  else
    match rest.drop y.length with
    | '\x7d' :: r => some r
    | _ => none

/-- Lazy search for the first `\\end\{...\}` occurrence. -/
def searchEnd : List Char → Option (List Char)
  | [] => none
  | c :: cs =>
    match tryEndTag (c :: cs) with
    | some r => some r
    | none => searchEnd cs

/-- `re.sub(r'\\begin\{[^}]+\}.*?\\end\{[^}]+\}', '', ..., flags=re.DOTALL)`. -/
def tryBeginEnd (s : List Char) : Option (List Char × List Char) := do
  let rest ← dropPre (str "\\begin\x7b") s
  let x := rest.takeWhile (· != '\x7d')
  if x.isEmpty then none
  else
    match rest.drop x.length with
    | '\x7d' :: r =>
      match searchEnd r with
      | some r2 => some ([], r2)
      | none => none
    | _ => none

/-- `re.sub(r'\\[a-zA-Z]+\{[^}]*\}', '', ...)`. -/
def tryCmdBraces (s : List Char) : Option (List Char × List Char) :=
  match s with
  | '\\' :: t =>
    let l := t.takeWhile isAsciiAlpha
    if l.isEmpty then none
    else
      match t.drop l.length with
      | '\x7b' :: u =>
        match u.dropWhile (· != '\x7d') with
        | '\x7d' :: r => some ([], r)
        | _ => none
      | _ => none
  | _ => none

/-- `re.sub(r'\\[a-zA-Z]+', '', ...)`. -/
def tryCmd (s : List Char) : Option (List Char × List Char) :=
  match s with
  | '\\' :: t =>
    let l := t.takeWhile isAsciiAlpha
    if l.isEmpty then none else some ([], t.drop l.length)
  | _ => none

/-- `re.sub(r'\{[^{}]*\}', '', ...)`. -/
def tryBraces (s : List Char) : Option (List Char × List Char) :=
  match s with
  | '\x7b' :: t =>
    match t.dropWhile (fun c => !isBrace c) with
    | '\x7d' :: r => some ([], r)
    | _ => none
  | _ => none

/-- Characters of the class `[{}\\^_]`. -/
def isSpecialRunChar (c : Char) : Bool :=
  c = '\x7b' || c = '\x7d' || c = '\\' || c = '^' || c = '_'

/-- `re.sub(r'[{}\\^_]+', '', ...)`. -/
def trySpecialRun (s : List Char) : Option (List Char × List Char) :=
  match s with
  | c :: _ =>
    if isSpecialRunChar c then
      let run := s.takeWhile isSpecialRunChar
      some ([], s.drop run.length)
    else none
  | [] => none

/-- Split at the first occurrence of `r`, returning the part before it and
the part after it; `none` when `r` is absent. -/
def splitAtFirst (r : Char) : List Char → Option (List Char × List Char)
  | [] => none
  | c :: cs =>
    if c = r then some ([], cs)
    else (splitAtFirst r cs).map (fun p => (c :: p.1, p.2))

/-- `re.sub(fr"{l}\s*(.*?)\s*{r}", fr"{l}\1{r}", text, flags=re.S)` for one
bracket pair: the lazy group runs to the first closing bracket, and the
greedy `\s*` borders strip the whitespace adjacent to both brackets. -/
def tryPair (l r : Char) (s : List Char) : Option (List Char × List Char) :=
  match s with
  | c :: cs =>
    if c = l then
      let ws := cs.takeWhile isPyWS
      match splitAtFirst r (cs.drop ws.length) with
      | some (pre, rest) => some (l :: (dropWhileEnd isPyWS pre ++ [r]), rest)
      | none => none
    else none
  | [] => none

/-- The closing punctuation class `[，。、；：！？》）」』]`. -/
def zhPunct : List Char := str "，。、；：！？》）」』"

/-- `re.sub(r"\s+([，。、；：！？》）」』])", r"\1", text)`. -/
def tryPunctGap (s : List Char) : Option (List Char × List Char) :=
  match s with
  | c :: _ =>
    if isPyWS c then
      let run := s.takeWhile isPyWS
      match s.drop run.length with
      | d :: rest => if zhPunct.contains d then some ([d], rest) else none
      | [] => none
    else none
  | [] => none

/-- `re.sub(r"(\d{1,4})\s*年\s*(\d{1,2})\s*月\s*(\d{1,2})\s*日", r"\1年\2月\3日", text)`. -/
def tryDate3 (s : List Char) : Option (List Char × List Char) :=
  let d1 := s.takeWhile Char.isDigit
  if d1.length = 0 || 4 < d1.length then none
  else
    match (s.drop d1.length).dropWhile isPyWS with
    | '年' :: u1 =>
      let v1 := u1.dropWhile isPyWS
      let d2 := v1.takeWhile Char.isDigit
      if d2.length = 0 || 2 < d2.length then none
      else
        match (v1.drop d2.length).dropWhile isPyWS with
        | '月' :: u2 =>
          let v2 := u2.dropWhile isPyWS
          let d3 := v2.takeWhile Char.isDigit
          if d3.length = 0 || 2 < d3.length then none
          else
            match (v2.drop d3.length).dropWhile isPyWS with
            | '日' :: u3 => some (d1 ++ '年' :: (d2 ++ '月' :: (d3 ++ ['日'])), u3)
            | _ => none
        | _ => none
    | _ => none

/-- `re.sub(r"(\d{1,4})\s*年\s*(\d{1,2})\s*月", r"\1年\2月", text)`. -/
def tryDate2 (s : List Char) : Option (List Char × List Char) :=
  let d1 := s.takeWhile Char.isDigit
  if d1.length = 0 || 4 < d1.length then none
  else
    match (s.drop d1.length).dropWhile isPyWS with
    | '年' :: u1 =>
      let v1 := u1.dropWhile isPyWS
      let d2 := v1.takeWhile Char.isDigit
      if d2.length = 0 || 2 < d2.length then none
      else
        match (v1.drop d2.length).dropWhile isPyWS with
        | '月' :: u2 => some (d1 ++ '年' :: (d2 ++ ['月']), u2)
        | _ => none
    | _ => none

/-- `re.sub(r"\s*PAT\s*", "PAT", text)` for a fixed non-empty literal `PAT`
(used for `——`, `—` and `、`). -/
def tryGapAround (pat : List Char) (s : List Char) : Option (List Char × List Char) :=
  let ws := s.takeWhile isPyWS
  let t := s.drop ws.length
  if pat.isPrefixOf t then
    let r := t.drop pat.length
    some (pat, r.drop (r.takeWhile isPyWS).length)
  else none

/-- CJK ranges used by step 5 of `zh_tidy` (`\u4E00-\u9FFF\u3400-\u4DBF`). -/
def isCJK (c : Char) : Bool :=
  (0x4E00 ≤ c.toNat && c.toNat ≤ 0x9FFF) || (0x3400 ≤ c.toNat && c.toNat ≤ 0x4DBF)

/-- Head of a list is a CJK character. -/
def headIsCJK : List Char → Bool
  | d :: _ => isCJK d
  | [] => false

/-- `re.sub(fr"(?<=[CJK])[ \t ]+(?=[CJK])", "", line)`. -/
def deCJKGo : Nat → List Char → List Char
  | 0, l => l
  | _, [] => []
  | fuel + 1, c :: cs =>
    if isCJK c then
      let run := cs.takeWhile isHWS
      let rest := cs.drop run.length
      if 0 < run.length && headIsCJK rest then c :: deCJKGo fuel rest
      else c :: deCJKGo fuel cs
    else c :: deCJKGo fuel cs

/-- Intra-CJK horizontal-whitespace removal with sufficient fuel. -/
def deCJK (l : List Char) : List Char :=
  deCJKGo (l.length + 1) l

/-- Python `text.split('\n')`. -/
def splitOnNl : List Char → List (List Char)
  | [] => [[]]
  | c :: cs =>
    if c = '\n' then [] :: splitOnNl cs
    else
      match splitOnNl cs with
      | [] => [[c]]
      | l :: ls => (c :: l) :: ls

/-- Python `sep.join(parts)`. -/
def joinSep (sep : List Char) : List (List Char) → List Char
  | [] => []
  | [x] => x
  | x :: y :: rest => x ++ sep ++ joinSep sep (y :: rest)

/-- `'\n'.join(lines)`. -/
def joinNl (ls : List (List Char)) : List Char :=
  joinSep ['\n'] ls

/-- The per-line treatment in step 5 of `zh_tidy`: short unpunctuated lines
are kept verbatim (heading heuristic); other non-blank lines are stripped
and have intra-CJK horizontal whitespace removed. -/
def tidyLine (line : List Char) : List Char :=
  let st := pyStrip line
  if st.isEmpty then line
  else if st.length < 30 &&
      !(st.any (fun c => c == '。' || c == '，' || c == '！' || c == '？')) then line
  else deCJK st

/-- `re.sub(r"\n{3,}", "\n\n", text)`. -/
def tryBlankRun (s : List Char) : Option (List Char × List Char) :=
  match s with
  | c :: _ =>
    if c = '\n' then
      let run := s.takeWhile (· == '\n')
      if 3 ≤ run.length then some (['\n', '\n'], s.drop run.length) else none
    else none
  | [] => none

/-- The normalizer `zh_tidy` of `wiki_scrawler.py` (lines 246-317): the
whitespace collapse, LaTeX-artifact stripping, bracket/punctuation/date/
dash tightening, per-line CJK despacing and blank-line squeeze, in source
order. -/
def zh_tidy (text : List Char) : List Char :=
  let text := collapseHWS text
  let text := scanSub tryDsBalanced text
  let text := scanSub tryBraceCmd text
  let text := scanSub tryDsTail text
  let text := scanSub tryBeginEnd text
  let text := scanSub tryCmdBraces text
  let text := scanSub tryCmd text
  let text := scanSub tryBraces text
  let text := scanSub trySpecialRun text
  let text := scanSub (tryPair '《' '》') text
  let text := scanSub (tryPair '〈' '〉') text
  let text := scanSub (tryPair '「' '」') text
  let text := scanSub (tryPair '『' '』') text
  let text := scanSub (tryPair '（' '）') text
  let text := scanSub tryPunctGap text
  let text := scanSub tryDate3 text
  let text := scanSub tryDate2 text
  let text := scanSub (tryGapAround (str "——")) text
  let text := scanSub (tryGapAround (str "—")) text
  let text := joinNl ((splitOnNl text).map tidyLine)
  let text := scanSub (tryGapAround (str "、")) text
  let text := scanSub tryBlankRun text
  text

/-! ## Document tree

`BeautifulSoup` trees are modelled as ordered element/text trees: an
element holds its tag name, attribute list and child list; a text node
holds its characters. -/

inductive Node where
  | elem (tag : String) (attrs : List (String × String)) (children : List Node)
  | text (s : List Char)

/-- Children of an element (a text node has none). -/
def childrenOf : Node → List Node
  | .elem _ _ cs => cs
  | .text _ => []

/-- Attribute list of a node. -/
def attrsOf : Node → List (String × String)
  | .elem _ a _ => a
  | .text _ => []

/-- Does this node carry the given element tag? -/
def tagIs (n : Node) (t : String) : Bool :=
  match n with
  | .elem tag _ _ => tag = t
  | .text _ => false

/-- Attribute lookup (`el.get(name)`). -/
def getAttr (n : Node) (name : String) : Option String :=
  (attrsOf n).lookup name

mutual

/-- Pre-order list of a node and all its descendants. -/
def preorderNode : Node → List Node
  | .text s => [.text s]
  | .elem t a cs => .elem t a cs :: preorderList cs

/-- Pre-order list of the nodes of a forest. -/
def preorderList : List Node → List Node
  | [] => []
  | n :: ns => preorderNode n ++ preorderList ns

end

/-- `tag.descendants`: all nodes strictly below `n`, in document order. -/
def descendantsOf (n : Node) : List Node :=
  match n with
  | .elem _ _ cs => preorderList cs
  | .text _ => []

/-- `tag.get_text("", strip=True)`: concatenation of the stripped text of
all descendant strings. -/
def getTextStrip (n : Node) : List Char :=
  ((descendantsOf n).filterMap (fun d =>
    match d with
    | .text s => some (pyStrip s)
    | .elem _ _ _ => none)).flatten

/-- Python `str.isascii()` on a single character. -/
def charIsAscii (c : Char) : Bool := c.toNat < 128

/-- First character is ASCII (`bool(s and s[0].isascii())`). -/
def headAscii : List Char → Bool
  | c :: _ => charIsAscii c
  | [] => false

/-- Last character is ASCII (`bool(s and s[-1].isascii())`). -/
def lastCharAscii (l : List Char) : Bool := headAscii l.reverse

/-- One step of the ASCII-boundary joiner shared by `smart_text` and
`extract_text_from_li`: append the (non-empty) fragment, inserting one
space when the accumulator is non-empty and both boundary characters are
ASCII; return the new accumulator and the new `last_ascii` flag. -/
def appendFrag (acc : List Char) (lastA : Bool) (chunk : List Char) :
    List Char × Bool :=
  (if !acc.isEmpty && lastA && headAscii chunk then acc ++ ' ' :: chunk
   else acc ++ chunk,
   lastCharAscii chunk)

/-! Descendant scan of `extract_text_from_li` (`wiki_scrawler.py` lines
398-423): walk all descendants in document order; text whose nearest
enclosing `li` is a nested one is skipped; `br` appends one space and
clears the ASCII flag. -/
mutual

/-- One node of the `extract_text_from_li` descendant scan. -/
def extractLiNode : Node → Bool → List Char × Bool → List Char × Bool
  | .text s, inNested, (acc, lastA) =>
    if inNested then (acc, lastA)
    else
      let stx := pyStrip s
      if stx.isEmpty then (acc, lastA)
      else appendFrag acc lastA stx
  | .elem t _ cs, inNested, (acc, lastA) =>
    let st1 := if t = "br" then (acc ++ [' '], false) else (acc, lastA)
    extract_li_fold cs (inNested || t = "li") st1

/-- The scan over a forest, in document order. -/
def extract_li_fold : List Node → Bool → List Char × Bool → List Char × Bool
  | [], _, st => st
  | n :: rest, inNested, st =>
    extract_li_fold rest inNested (extractLiNode n inNested st)

end

/-- `extract_text_from_li` (`wiki_scrawler.py` lines 398-423). -/
def extract_text_from_li (li : Node) : List Char :=
  (extract_li_fold (childrenOf li) false ([], false)).1

/-- Decimal rendering of a 1-based index (`f"{i}. "`s number). -/
def natChars (n : Nat) : List Char := (toString n).data

/-- `process_ordered_list` (`wiki_scrawler.py` lines 376-385): number the
direct `li` children 1-based (the counter advances on empty items too),
keep the non-empty renderings, join with single spaces. -/
def process_ordered_list (n : Node) : List Char :=
  let lis := (childrenOf n).filter (fun c => tagIs c "li")
  let items := (List.zip (List.range lis.length) lis).filterMap (fun p =>
    let t := extract_text_from_li p.2
    if t.isEmpty then none else some (natChars (p.1 + 1) ++ '.' :: ' ' :: t))
  joinSep [' '] items

/-- `process_unordered_list` (`wiki_scrawler.py` lines 388-395). -/
def process_unordered_list (n : Node) : List Char :=
  let items := ((childrenOf n).filter (fun c => tagIs c "li")).filterMap (fun li =>
    let t := extract_text_from_li li
    if t.isEmpty then none else some ('•' :: ' ' :: t))
  joinSep [' '] items

mutual

/-- `smart_text` (`wiki_scrawler.py` lines 323-373): ASCII-boundary text
joining over the children, recursing into non-list tags, delegating lists
and treating `br` as one space.  (The source is only ever invoked on
elements; a bare text node renders as its stripped text.) -/
def smart_text : Node → List Char
  | .text s => pyStrip s
  | .elem t a cs =>
    if t = "ol" then process_ordered_list (.elem t a cs)
    else if t = "ul" then process_unordered_list (.elem t a cs)
    else smartTextGo cs [] false

/-- Child loop of `smart_text`, carrying the accumulated text and the
`last_ascii` flag. -/
def smartTextGo : List Node → List Char → Bool → List Char
  | [], acc, _ => acc
  | .text s :: rest, acc, lastA =>
    let stx := pyStrip s
    if stx.isEmpty then smartTextGo rest acc lastA
    else
      let p := appendFrag acc lastA stx
      smartTextGo rest p.1 p.2
  | .elem t a cs :: rest, acc, lastA =>
    if t = "ol" || t = "ul" then
      let lc := if t = "ol" then process_ordered_list (.elem t a cs)
                else process_unordered_list (.elem t a cs)
      if lc.isEmpty then smartTextGo rest acc lastA
      else smartTextGo rest (acc ++ lc) false
    else if t = "br" then smartTextGo rest (acc ++ [' ']) false
    else
      let ct := smart_text (.elem t a cs)
      if ct.isEmpty then smartTextGo rest acc lastA
      else
        let p := appendFrag acc lastA ct
        smartTextGo rest p.1 p.2

end

/-! ## Claim C7: the ASCII-boundary joining rule -/

/-- The joining rule in the words of the claim: walking the fragments in
order, a fragment that is empty or whitespace-only contributes nothing and
leaves the state untouched; otherwise exactly one space is inserted iff
the last character of the accumulated output and the first character of
the (stripped) fragment are both ASCII. -/
def asciiBoundaryJoin : List (List Char) → List Char → List Char
  | [], acc => acc
  | f :: fs, acc =>
    let stx := pyStrip f
    if stx.isEmpty then asciiBoundaryJoin fs acc
    else
      asciiBoundaryJoin fs
        (if !acc.isEmpty && lastCharAscii acc && headAscii stx then acc ++ ' ' :: stx
         else acc ++ stx)

theorem headAscii_append (a b : List Char) :
    headAscii (a ++ b) = if a.isEmpty then headAscii b else headAscii a := by
  cases a <;> simp [headAscii]

theorem lastCharAscii_append (a b : List Char) (h : ¬ b.isEmpty) :
    lastCharAscii (a ++ b) = lastCharAscii b := by
  unfold lastCharAscii
  rw [List.reverse_append, headAscii_append]
  cases b <;> simp_all

/-- The `last_ascii` flag tracked by `smart_text` coincides, on text-only
children, with "the last character of the accumulated output is ASCII". -/
theorem smartTextGo_texts (frags : List (List Char)) :
    ∀ acc lastA, (acc = [] ∨ lastA = lastCharAscii acc) →
      smartTextGo (frags.map .text) acc lastA = asciiBoundaryJoin frags acc := by
  induction frags with
  | nil => intro acc lastA _; simp [smartTextGo, asciiBoundaryJoin]
  | cons f fs ih =>
    intro acc lastA hinv
    by_cases hst : (pyStrip f).isEmpty
    · simp [smartTextGo, asciiBoundaryJoin, hst, ih acc lastA hinv]
    · have hcond : (!acc.isEmpty && lastA && headAscii (pyStrip f))
          = (!acc.isEmpty && lastCharAscii acc && headAscii (pyStrip f)) := by
        rcases hinv with h | h
        · subst h; simp
        · subst h; rfl
      have hinv2 : ∀ pfx : List Char,
          (pfx ++ pyStrip f) = [] ∨
            lastCharAscii (pyStrip f) = lastCharAscii (pfx ++ pyStrip f) := by
        intro pfx
        right
        rw [lastCharAscii_append _ _ hst]
      simp only [smartTextGo, asciiBoundaryJoin, List.map_cons, hst, if_neg,
        Bool.not_eq_true, appendFrag]
      rw [hcond]
      by_cases hc : (!acc.isEmpty && lastCharAscii acc && headAscii (pyStrip f)) = true
      · simp only [hst, hc, if_true, Bool.false_eq_true, if_false]
        have := ih (acc ++ ' ' :: pyStrip f) (lastCharAscii (pyStrip f))
          (by simpa using hinv2 (acc ++ [' ']))
        simpa [asciiBoundaryJoin, hst, hc] using this
      · simp only [hst, hc, Bool.false_eq_true, if_false]
        have := ih (acc ++ pyStrip f) (lastCharAscii (pyStrip f)) (hinv2 acc)
        simpa [asciiBoundaryJoin, hst, hc] using this

/-- Same statement for the descendant scan of `extract_text_from_li`. -/
theorem extract_li_fold_texts (frags : List (List Char)) :
    ∀ acc lastA, (acc = [] ∨ lastA = lastCharAscii acc) →
      (extract_li_fold (frags.map .text) false (acc, lastA)).1
        = asciiBoundaryJoin frags acc := by
  induction frags with
  | nil => intro acc lastA _; simp [extract_li_fold, asciiBoundaryJoin]
  | cons f fs ih =>
    intro acc lastA hinv
    by_cases hst : (pyStrip f).isEmpty
    · have hstep : extractLiNode (.text f) false (acc, lastA) = (acc, lastA) := by
        simp [extractLiNode, hst]
      simp only [List.map_cons, extract_li_fold, hstep]
      simp [asciiBoundaryJoin, hst, ih acc lastA hinv]
    · have hcond : (!acc.isEmpty && lastA && headAscii (pyStrip f))
          = (!acc.isEmpty && lastCharAscii acc && headAscii (pyStrip f)) := by
        rcases hinv with h | h
        · subst h; simp
        · subst h; rfl
      have hinv2 : ∀ pfx : List Char,
          (pfx ++ pyStrip f) = [] ∨
            lastCharAscii (pyStrip f) = lastCharAscii (pfx ++ pyStrip f) := by
        intro pfx
        right
        rw [lastCharAscii_append _ _ hst]
      have hstep : extractLiNode (.text f) false (acc, lastA)
          = (if !acc.isEmpty && lastCharAscii acc && headAscii (pyStrip f) then
              acc ++ ' ' :: pyStrip f
            else acc ++ pyStrip f, lastCharAscii (pyStrip f)) := by
        simp only [extractLiNode, Bool.false_eq_true, if_false, hst, appendFrag]
        rw [hcond]
      simp only [List.map_cons, extract_li_fold, hstep]
      by_cases hc : (!acc.isEmpty && lastCharAscii acc && headAscii (pyStrip f)) = true
      · rw [if_pos hc]
        have := ih (acc ++ ' ' :: pyStrip f) (lastCharAscii (pyStrip f))
          (by simpa using hinv2 (acc ++ [' ']))
        rw [this]
        simp [asciiBoundaryJoin, hst, hc]
      · rw [if_neg hc]
        have := ih (acc ++ pyStrip f) (lastCharAscii (pyStrip f)) (hinv2 acc)
        rw [this]
        simp only [Bool.not_eq_true] at hc
        simp [asciiBoundaryJoin, hst, hc]

/-- Whitespace-only fragments leave the joining state untouched. -/
theorem smartTextGo_skip_blank (ws : List Char) (hws : pyStrip ws = [])
    (pre : List Node) :
    ∀ post acc lastA,
      smartTextGo (pre ++ .text ws :: post) acc lastA
        = smartTextGo (pre ++ post) acc lastA := by
  induction pre with
  | nil => intro post acc lastA; simp [smartTextGo, hws]
  | cons n pre ih =>
    intro post acc lastA
    cases n with
    | text s =>
      by_cases h : (pyStrip s).isEmpty
      · simp [smartTextGo, h, ih]
      · simp [smartTextGo, h, ih]
    | elem t a cs =>
      by_cases hol : t = "ol" || t = "ul"
      · simp only [List.cons_append, smartTextGo, hol]
        by_cases hlc : (if t = "ol" then process_ordered_list (.elem t a cs)
            else process_unordered_list (.elem t a cs)).isEmpty
        · simp [hlc, ih]
        · simp [hlc, ih]
      · by_cases hbr : t = "br"
        · simp [smartTextGo, hol, hbr, ih]
        · by_cases hct : (smart_text (.elem t a cs)).isEmpty
          · simp [smartTextGo, hol, hbr, hct, ih]
          · simp [smartTextGo, hol, hbr, hct, ih]

/-- C7.  The Inline Text Joiner inserts exactly one space at a fragment
boundary iff the last accumulated character and the first character of the
next fragment are both ASCII; `["Jolin", "Tsai"]` joins to `"Jolin Tsai"`
and `["歌手", "身分"]` to `"歌手身分"`; empty or whitespace-only fragments
contribute nothing and leave the `last_ascii` state unchanged.  Stated for
`smart_text` over text children (with the rule captured verbatim by
`asciiBoundaryJoin`), for the identical loop of `extract_text_from_li`,
and as the state-preservation equation across a blank fragment. -/
theorem claim_C7_ascii_boundary_joining :
    (∀ (t : String) (a : List (String × String)) (frags : List (List Char)),
      t ≠ "ol" → t ≠ "ul" →
        smart_text (.elem t a (frags.map .text)) = asciiBoundaryJoin frags [])
    ∧ (∀ li : Node, ∀ frags : List (List Char),
        li = .elem "li" [] (frags.map .text) →
          extract_text_from_li li = asciiBoundaryJoin frags [])
    ∧ smart_text (.elem "p" [] [.text (str "Jolin"), .text (str "Tsai")])
        = str "Jolin Tsai"
    ∧ smart_text (.elem "p" [] [.text (str "歌手"), .text (str "身分")])
        = str "歌手身分"
    ∧ (∀ (ws : List Char), pyStrip ws = [] →
        ∀ (pre post : List Node) (acc : List Char) (lastA : Bool),
          smartTextGo (pre ++ .text ws :: post) acc lastA
            = smartTextGo (pre ++ post) acc lastA) := by
  refine ⟨?_, ?_, by decide, by decide, ?_⟩
  · intro t a frags h1 h2
    have : smart_text (.elem t a (frags.map .text))
        = smartTextGo (frags.map .text) [] false := by
      simp [smart_text, h1, h2]
    rw [this, smartTextGo_texts frags [] false (Or.inl rfl)]
  · intro li frags h
    subst h
    unfold extract_text_from_li
    simpa [childrenOf] using extract_li_fold_texts frags [] false (Or.inl rfl)
  · intro ws hws pre post acc lastA
    exact smartTextGo_skip_blank ws hws pre post acc lastA

/-- Witness for C7 at a concrete input: the first conjunct applied to the
two-fragment document `["Jolin", "Tsai"]`. -/
theorem claim_C7_witness :
    smart_text (.elem "p" [] ([str "Jolin", str "Tsai"].map .text))
      = asciiBoundaryJoin [str "Jolin", str "Tsai"] [] :=
  claim_C7_ascii_boundary_joining.1 "p" [] [str "Jolin", str "Tsai"]
    (by decide) (by decide)

/-! ## Table flattener (`table_to_lines`, lines 433-531) -/

/-- An active rowspan claim on a column (`{"rows_left": …, "value": …}`). -/
structure SpanInfo where
  rowsLeft : Nat
  value : List Char
deriving DecidableEq

/-- A table cell after rendering: its squeezed text and parsed spans. -/
structure Cell where
  text : List Char
  colspan : Nat
  rowspan : Nat
deriving DecidableEq

/-- `_parse_int` (`wiki_scrawler.py` lines 426-430): `max(int(value), 1)`,
falling back to the default 1 when the attribute is missing or unparsable.
Python `int` accepts surrounding whitespace and an optional sign. -/
def parse_int (v : Option String) : Nat :=
  match v with
  | none => 1
  | some s =>
    let t := pyStrip s.data
    let (sign, digits) :=
      match t with
      | '-' :: r => (true, r)
      | '+' :: r => (false, r)
      | r => (false, r)
    if digits.isEmpty || !(digits.all Char.isDigit) then 1
    else if sign then 1
    else max (digits.foldl (fun n c => n * 10 + (c.toNat - 48)) 0) 1

/-- Start-of-row application of the active spans: each still-active span
contributes its value to the new row and is decremented, freeing the
column when its counter reaches zero; inactive columns start empty. -/
def applySpans : List (Option SpanInfo) →
    List (Option (List Char)) × List (Option SpanInfo)
  | [] => ([], [])
  | none :: rest =>
    let p := applySpans rest
    (none :: p.1, none :: p.2)
  | some sp :: rest =>
    let p := applySpans rest
    (some sp.value :: p.1,
     (if sp.rowsLeft - 1 = 0 then none else some ⟨sp.rowsLeft - 1, sp.value⟩) :: p.2)

/-- Can a block of `n` columns be hosted at column `c` of the current row
(out-of-range columns count as free, as the source extends the buffers on
demand)? -/
def fitsAt (row : List (Option (List Char))) (c n : Nat) : Bool :=
  (List.range n).all (fun k => (row.getD (c + k) none).isNone)

/-- Offset of the first occupied column inside the candidate block (the
`break` position of the inner `for offset in range(colspan)` loop). -/
def firstBlockedOff (row : List (Option (List Char))) (c n : Nat) : Nat :=
  ((List.range n).find? (fun k => (row.getD (c + k) none).isSome)).getD 0

/-- The `while True` slot search of `table_to_lines` (lines 487-506): march
`col_idx` rightwards, jumping past the first occupied column of each failed
block, until the block fits.  The fuel (`row.length + 1` in `findSlot`)
makes the recursion structural; each failed fit strictly advances the
index, which stays `≤ row.length`, so it is never exhausted. -/
def findSlotGo (row : List (Option (List Char))) (n : Nat) : Nat → Nat → Nat
  | 0, c => c
  | fuel + 1, c =>
    if fitsAt row c n then c
    else findSlotGo row n fuel (c + firstBlockedOff row c n + 1)

/-- First column index whose block of `n` columns is free. -/
def findSlot (row : List (Option (List Char))) (n : Nat) : Nat :=
  findSlotGo row n (row.length + 1) 0

/-- Extend a buffer with `None` entries up to length `n` (the
`while pos >= len(...): append(None)` extensions). -/
def extendRow (row : List (Option α)) (n : Nat) : List (Option α) :=
  row ++ List.replicate (n - row.length) none

/-- Write the cell's block into the row: the anchor column receives the
text, the remaining `colspan - 1` columns the empty string. -/
def writeRowBlock (row : List (Option (List Char))) (c : Nat) (text : List Char)
    (n : Nat) : List (Option (List Char)) :=
  (List.range n).foldl
    (fun r k => r.set (c + k) (some (if k = 0 then text else []))) row

/-- Write the cell's block into the span tracker: a `rowspan > 1` cell
registers `rowspan - 1` remaining rows on each of its columns (the anchor
column carrying the text, the others the empty string); otherwise the
columns are cleared. -/
def writeSpanBlock (spans : List (Option SpanInfo)) (c : Nat) (cell : Cell) :
    List (Option SpanInfo) :=
  (List.range cell.colspan).foldl
    (fun s k => s.set (c + k)
      (if 1 < cell.rowspan then
        some ⟨cell.rowspan - 1, if k = 0 then cell.text else []⟩
      else none)) spans

/-- Placement of one cell (lines 486-518): find the slot, extend both
buffers to cover the block, then write the row block and the span block. -/
def placeCell (row : List (Option (List Char))) (spans : List (Option SpanInfo))
    (cell : Cell) : List (Option (List Char)) × List (Option SpanInfo) :=
  let c := findSlot row cell.colspan
  (writeRowBlock (extendRow row (c + cell.colspan)) c cell.text cell.colspan,
   writeSpanBlock (extendRow spans (c + cell.colspan)) c cell)

/-- Placement of all cells of one `<tr>`, in document order. -/
def placeCells (st : List (Option (List Char)) × List (Option SpanInfo))
    (cells : List Cell) : List (Option (List Char)) × List (Option SpanInfo) :=
  cells.foldl (fun p cell => placeCell p.1 p.2 cell) st

/-- `bool(col.strip())` is false: the column text is empty or whitespace. -/
def isBlankStr (s : List Char) : Bool := (pyStrip s).isEmpty

/-- `while cleaned and not cleaned[-1].strip(): cleaned.pop()`. -/
def dropTrailingBlanks (l : List (List Char)) : List (List Char) :=
  (l.reverse.dropWhile isBlankStr).reverse

/-- Process one `<tr>`: apply the active spans, place the cells, convert
`None` slots to empty strings, trim trailing blank columns; the row is
kept only when some column is non-blank. -/
def processRow (spans : List (Option SpanInfo)) (cells : List Cell) :
    Option (List (List Char)) × List (Option SpanInfo) :=
  let p0 := applySpans spans
  let p1 := placeCells p0 cells
  let cleaned := dropTrailingBlanks (p1.1.map (fun o => o.getD []))
  (if cleaned.any (fun col => !(isBlankStr col)) then some cleaned else none,
   p1.2)

/-- Process the rows of one table in order, threading the span tracker;
`none` entries are rows dropped for being entirely blank. -/
def processRows : List (List Cell) → List (Option SpanInfo) →
    List (Option (List (List Char)))
  | [], _ => []
  | cells :: rest, spans =>
    let p := processRow spans cells
    p.1 :: processRows rest p.2

/-- Span tracker after processing the given rows. -/
def spansAfter (rows : List (List Cell)) (spans : List (Option SpanInfo)) :
    List (Option SpanInfo) :=
  rows.foldl (fun sp cells => (processRow sp cells).2) spans

/-- `table_squeeze` (lines 443-448): newlines become spaces, then strip
and collapse horizontal whitespace. -/
def table_squeeze (s : List Char) : List Char :=
  collapseHWS (pyStrip (s.map (fun c => if c = '\n' then ' ' else c)))

/-! `tr` rows belonging to this table: all descendant `tr` nodes whose
nearest enclosing `table` is this one, i.e. the pre-order scan that does
not descend into nested `table` subtrees
(`tr.find_parent("table") is not table` filter of line 454). -/
mutual

/-- `tr` collection below one node (empty on nested `table` subtrees). -/
def collectTrsNode : Node → List Node
  | .text _ => []
  | .elem t a cs =>
    if t = "table" then []
    else if t = "tr" then .elem t a cs :: collectTrsList cs
    else collectTrsList cs

/-- `tr` collection over a forest, in document order. -/
def collectTrsList : List Node → List Node
  | [] => []
  | n :: rest => collectTrsNode n ++ collectTrsList rest

end

/-- First descendant with the given tag (`tag.find(name)`). -/
def findFirstTag (t : String) (n : Node) : Option Node :=
  (descendantsOf n).find? (fun d => tagIs d t)

/-- Direct-child `th`/`td` cells of a `tr`
(`tr.find_all(["th", "td"], recursive=False)`). -/
def cellNodesOf (tr : Node) : List Node :=
  (childrenOf tr).filter (fun c => tagIs c "th" || tagIs c "td")

/-- Render one cell node: squeezed `smart_text` plus parsed spans. -/
def cellOf (cell : Node) : Cell :=
  { text := table_squeeze (smart_text cell)
    colspan := parse_int (getAttr cell "colspan")
    rowspan := parse_int (getAttr cell "rowspan") }

/-- The matrix of rendered cells of a table, one entry per owned `<tr>`. -/
def tableCellRows (table : Node) : List (List Cell) :=
  (collectTrsList (childrenOf table)).map (fun tr => (cellNodesOf tr).map cellOf)

/-- The logical grid of a table: the kept (non-blank) rows, in order. -/
def tableGridOf (table : Node) : List (List (List Char)) :=
  (processRows (tableCellRows table) []).reduceOption

/-- `table_to_lines` (lines 433-531): optional caption line, then one
`"• "`-prefixed pipe-joined line per kept grid row. -/
def table_to_lines (table : Node) (squeeze : List Char → List Char) :
    List (List Char) :=
  let captionLines :=
    match findFirstTag "caption" table with
    | some cap =>
      let ct := squeeze (smart_text cap)
      if ct.isEmpty then [] else [ct]
    | none => []
  captionLines ++ (tableGridOf table).filterMap (fun row =>
    let line := joinSep (str " | ") row
    if (pyStrip line).isEmpty then none else some ('•' :: ' ' :: line))

/-! ### Buffer lemmas -/

theorem getD_extendRow (row : List (Option α)) (n p : Nat) :
    (extendRow row n).getD p none = row.getD p none := by
  unfold extendRow
  by_cases h : p < row.length
  · rw [List.getD_eq_getElem?_getD, List.getElem?_append_left h,
      ← List.getD_eq_getElem?_getD]
  · push_neg at h
    rw [List.getD_eq_getElem?_getD, List.getElem?_append_right h,
      List.getD_eq_getElem?_getD, List.getElem?_eq_none h,
      List.getElem?_replicate]
    by_cases h2 : p - row.length < n - row.length
    · simp [h2]
    · simp [h2]

theorem length_extendRow (row : List (Option α)) (n : Nat) :
    (extendRow row n).length = max row.length n := by
  unfold extendRow
  simp
  omega

theorem getD_set_self (l : List (Option α)) (i : Nat) (v : Option α)
    (h : i < l.length) : (l.set i v).getD i none = v := by
  rw [List.getD_eq_getElem?_getD, List.getElem?_set_self h]
  rfl

theorem getD_set_ne (l : List (Option α)) (i p : Nat) (v : Option α)
    (h : i ≠ p) : (l.set i v).getD p none = l.getD p none := by
  rw [List.getD_eq_getElem?_getD, List.getElem?_set_ne h,
    ← List.getD_eq_getElem?_getD]

theorem writeRowBlock_zero (row : List (Option (List Char))) (c : Nat)
    (text : List Char) : writeRowBlock row c text 0 = row := by
  simp [writeRowBlock]

theorem writeRowBlock_succ (row : List (Option (List Char))) (c : Nat)
    (text : List Char) (m : Nat) :
    writeRowBlock row c text (m + 1)
      = (writeRowBlock row c text m).set (c + m)
          (some (if m = 0 then text else [])) := by
  unfold writeRowBlock
  rw [List.range_succ, List.foldl_append]
  simp

theorem length_writeRowBlock (row : List (Option (List Char))) (c : Nat)
    (text : List Char) (n : Nat) :
    (writeRowBlock row c text n).length = row.length := by
  induction n with
  | zero => rw [writeRowBlock_zero]
  | succ m ih => rw [writeRowBlock_succ, List.length_set, ih]

theorem getD_writeRowBlock (row : List (Option (List Char))) (c : Nat)
    (text : List Char) (n : Nat) (hlen : c + n ≤ row.length) (p : Nat) :
    (writeRowBlock row c text n).getD p none =
      if c ≤ p ∧ p < c + n then some (if p = c then text else [])
      else row.getD p none := by
  induction n with
  | zero =>
    rw [writeRowBlock_zero, if_neg (by omega)]
  | succ m ih =>
    have hlen' : c + m ≤ row.length := by omega
    rw [writeRowBlock_succ]
    by_cases hp : p = c + m
    · subst hp
      rw [getD_set_self _ _ _ (by rw [length_writeRowBlock]; omega)]
      rw [if_pos (show c ≤ c + m ∧ c + m < c + (m + 1) by omega)]
      by_cases hm : m = 0
      · subst hm; simp
      · rw [if_neg hm, if_neg (show ¬ (c + m = c) by omega)]
    · rw [getD_set_ne _ _ _ _ (by omega), ih hlen']
      by_cases h1 : c ≤ p ∧ p < c + m
      · rw [if_pos h1, if_pos (show c ≤ p ∧ p < c + (m + 1) by omega)]
      · rw [if_neg h1, if_neg (show ¬ (c ≤ p ∧ p < c + (m + 1)) by omega)]

theorem writeSpanBlock_zero (spans : List (Option SpanInfo)) (c : Nat)
    (cell : Cell) (h : cell.colspan = 0) : writeSpanBlock spans c cell = spans := by
  simp [writeSpanBlock, h]

theorem length_writeSpanBlock (spans : List (Option SpanInfo)) (c : Nat)
    (cell : Cell) :
    (writeSpanBlock spans c cell).length = spans.length := by
  unfold writeSpanBlock
  generalize cell.colspan = n
  induction n with
  | zero => simp
  | succ m ih =>
    rw [List.range_succ, List.foldl_append]
    simp [ih]

theorem getD_writeSpanBlock (spans : List (Option SpanInfo)) (c : Nat)
    (cell : Cell) (hlen : c + cell.colspan ≤ spans.length) (p : Nat) :
    (writeSpanBlock spans c cell).getD p none =
      if c ≤ p ∧ p < c + cell.colspan then
        (if 1 < cell.rowspan then
          some ⟨cell.rowspan - 1, if p = c then cell.text else []⟩
        else none)
      else spans.getD p none := by
  unfold writeSpanBlock
  have hgen : ∀ n, c + n ≤ spans.length →
      ((List.range n).foldl (fun s k => s.set (c + k)
        (if 1 < cell.rowspan then
          some ⟨cell.rowspan - 1, if k = 0 then cell.text else []⟩
        else none)) spans).getD p none =
      if c ≤ p ∧ p < c + n then
        (if 1 < cell.rowspan then
          some ⟨cell.rowspan - 1, if p = c then cell.text else []⟩
        else none)
      else spans.getD p none := by
    intro n
    induction n with
    | zero =>
      intro _
      rw [List.range_zero, List.foldl_nil, if_neg (by omega)]
    | succ m ih =>
      intro hn
      have hlenfold : ∀ j, ((List.range j).foldl (fun s k => s.set (c + k)
          (if 1 < cell.rowspan then
            some ⟨cell.rowspan - 1, if k = 0 then cell.text else []⟩
          else none)) spans).length = spans.length := by
        intro j
        induction j with
        | zero => simp
        | succ i ihj =>
          rw [List.range_succ, List.foldl_append]
          simp [ihj]
      rw [List.range_succ, List.foldl_append]
      simp only [List.foldl_cons, List.foldl_nil]
      by_cases hp : p = c + m
      · subst hp
        rw [getD_set_self _ _ _ (by rw [hlenfold]; omega)]
        rw [if_pos (show c ≤ c + m ∧ c + m < c + (m + 1) by omega)]
        by_cases hr : 1 < cell.rowspan
        · rw [if_pos hr, if_pos hr]
          by_cases hm : m = 0
          · subst hm; simp
          · rw [if_neg hm, if_neg (show ¬ (c + m = c) by omega)]
        · rw [if_neg hr, if_neg hr]
      · rw [getD_set_ne _ _ _ _ (by omega), ih (by omega)]
        by_cases h1 : c ≤ p ∧ p < c + m
        · rw [if_pos h1, if_pos (show c ≤ p ∧ p < c + (m + 1) by omega)]
        · rw [if_neg h1, if_neg (show ¬ (c ≤ p ∧ p < c + (m + 1)) by omega)]
  exact hgen cell.colspan hlen

/-! ### Slot-search lemmas -/

theorem getD_isSome_lt (row : List (Option α)) (p : Nat)
    (h : (row.getD p none).isSome) : p < row.length := by
  by_contra hc
  push_neg at hc
  rw [List.getD_eq_getElem?_getD, List.getElem?_eq_none hc] at h
  simp at h

theorem fitsAt_of_len_le (row : List (Option (List Char))) (c n : Nat)
    (h : row.length ≤ c) : fitsAt row c n = true := by
  unfold fitsAt
  rw [List.all_eq_true]
  intro k _
  rw [List.getD_eq_getElem?_getD, List.getElem?_eq_none (by omega)]
  simp

theorem blocked_spec (row : List (Option (List Char))) (c n : Nat)
    (h : fitsAt row c n = false) :
    firstBlockedOff row c n < n ∧
      (row.getD (c + firstBlockedOff row c n) none).isSome := by
  unfold fitsAt at h
  have : ∃ k, k ∈ List.range n ∧ ¬ ((row.getD (c + k) none).isNone = true) := by
    by_contra hc
    push_neg at hc
    rw [List.all_eq_true.2 (fun k hk => by simpa using hc k hk)] at h
    exact absurd h (by simp)
  obtain ⟨k, hk, hkk⟩ := this
  have hsome : ((List.range n).find? (fun k => (row.getD (c + k) none).isSome)).isSome := by
    apply List.find?_isSome.2
    refine ⟨k, hk, ?_⟩
    simpa [Option.isNone_iff_eq_none, Option.isSome_iff_ne_none] using hkk
  obtain ⟨j, hj⟩ := Option.isSome_iff_exists.1 hsome
  have hmem := List.find?_some hj
  have hjr := List.mem_range.1 (List.mem_of_find?_eq_some hj)
  unfold firstBlockedOff
  rw [hj]
  exact ⟨by simpa using hjr, by simpa using hmem⟩

theorem findSlotGo_spec (row : List (Option (List Char))) (n : Nat) :
    ∀ fuel c, c ≤ row.length → row.length < c + fuel →
      (∀ x, x < c → fitsAt row x n = false) →
      (fitsAt row (findSlotGo row n fuel c) n = true ∧
        findSlotGo row n fuel c ≤ row.length ∧
        ∀ x, x < findSlotGo row n fuel c → fitsAt row x n = false) := by
  intro fuel
  induction fuel with
  | zero => intro c hc hlt _; omega
  | succ m ih =>
    intro c hc hlt hinv
    unfold findSlotGo
    by_cases hfit : fitsAt row c n = true
    · rw [if_pos hfit]
      exact ⟨hfit, hc, hinv⟩
    · rw [Bool.not_eq_true] at hfit
      rw [if_neg (by simp [hfit])]
      obtain ⟨hkn, hksome⟩ := blocked_spec row c n hfit
      have hklt : c + firstBlockedOff row c n < row.length :=
        getD_isSome_lt row _ hksome
      apply ih
      · omega
      · omega
      · intro x hx
        by_cases hxc : x < c
        · exact hinv x hxc
        · push_neg at hxc
          unfold fitsAt
          rw [Bool.eq_false_iff]
          intro hall
          rw [List.all_eq_true] at hall
          have hoff : c + firstBlockedOff row c n - x < n := by omega
          have := hall (c + firstBlockedOff row c n - x) (by
            rw [List.mem_range]; omega)
          have hxoff : x + (c + firstBlockedOff row c n - x)
              = c + firstBlockedOff row c n := by omega
          rw [hxoff] at this
          rw [Option.isNone_iff_eq_none] at this
          rw [this] at hksome
          simp at hksome

theorem findSlot_spec (row : List (Option (List Char))) (n : Nat) :
    fitsAt row (findSlot row n) n = true ∧
      findSlot row n ≤ row.length ∧
      ∀ x, x < findSlot row n → fitsAt row x n = false := by
  unfold findSlot
  exact findSlotGo_spec row n (row.length + 1) 0 (by omega) (by omega)
    (by intro x hx; omega)

/-! ### Span-application and placement lemmas -/

theorem applySpans_lengths (spans : List (Option SpanInfo)) :
    (applySpans spans).1.length = spans.length ∧
      (applySpans spans).2.length = spans.length := by
  induction spans with
  | nil => simp [applySpans]
  | cons o rest ih =>
    cases o with
    | none => simp [applySpans, ih.1, ih.2]
    | some sp => simp [applySpans, ih.1, ih.2]

theorem applySpans_getD_row (spans : List (Option SpanInfo)) (p : Nat) :
    (applySpans spans).1.getD p none
      = (spans.getD p none).map (fun sp => sp.value) := by
  induction spans generalizing p with
  | nil => simp [applySpans]
  | cons o rest ih =>
    cases o with
    | none =>
      cases p with
      | zero => simp [applySpans]
      | succ q => simpa [applySpans] using ih q
    | some sp =>
      cases p with
      | zero => simp [applySpans]
      | succ q => simpa [applySpans] using ih q

theorem applySpans_getD_span (spans : List (Option SpanInfo)) (p : Nat) :
    (applySpans spans).2.getD p none
      = match spans.getD p none with
        | some sp =>
          if sp.rowsLeft - 1 = 0 then none
          else some ⟨sp.rowsLeft - 1, sp.value⟩
        | none => none := by
  induction spans generalizing p with
  | nil => simp [applySpans]
  | cons o rest ih =>
    cases o with
    | none =>
      cases p with
      | zero => simp [applySpans]
      | succ q => simpa [applySpans] using ih q
    | some sp =>
      cases p with
      | zero => simp [applySpans]
      | succ q => simpa [applySpans] using ih q

theorem placeCell_getD_row (row : List (Option (List Char)))
    (spans : List (Option SpanInfo)) (cell : Cell) (p : Nat) :
    (placeCell row spans cell).1.getD p none =
      if findSlot row cell.colspan ≤ p ∧
          p < findSlot row cell.colspan + cell.colspan then
        some (if p = findSlot row cell.colspan then cell.text else [])
      else row.getD p none := by
  unfold placeCell
  rw [getD_writeRowBlock _ _ _ _
    (by rw [length_extendRow]; omega) p]
  by_cases h : findSlot row cell.colspan ≤ p ∧
      p < findSlot row cell.colspan + cell.colspan
  · rw [if_pos h, if_pos h]
  · rw [if_neg h, if_neg h, getD_extendRow]

theorem placeCell_getD_span (row : List (Option (List Char)))
    (spans : List (Option SpanInfo)) (cell : Cell) (p : Nat) :
    (placeCell row spans cell).2.getD p none =
      if findSlot row cell.colspan ≤ p ∧
          p < findSlot row cell.colspan + cell.colspan then
        (if 1 < cell.rowspan then
          some ⟨cell.rowspan - 1,
            if p = findSlot row cell.colspan then cell.text else []⟩
        else none)
      else spans.getD p none := by
  unfold placeCell
  rw [getD_writeSpanBlock _ _ _
    (by rw [length_extendRow]; omega) p]
  by_cases h : findSlot row cell.colspan ≤ p ∧
      p < findSlot row cell.colspan + cell.colspan
  · rw [if_pos h, if_pos h]
  · rw [if_neg h, if_neg h, getD_extendRow]

theorem placeCell_lengths (row : List (Option (List Char)))
    (spans : List (Option SpanInfo)) (cell : Cell) :
    (placeCell row spans cell).1.length
      = max row.length (findSlot row cell.colspan + cell.colspan) ∧
    (placeCell row spans cell).2.length
      = max spans.length (findSlot row cell.colspan + cell.colspan) := by
  unfold placeCell
  constructor
  · rw [length_writeRowBlock, length_extendRow]
  · rw [length_writeSpanBlock, length_extendRow]

/-- An occupied column is never overwritten by a later cell of the row,
and its span-tracker entry is untouched. -/
theorem placeCell_preserves (row : List (Option (List Char)))
    (spans : List (Option SpanInfo)) (cell : Cell) (p : Nat) (v : List Char)
    (hocc : row.getD p none = some v) :
    (placeCell row spans cell).1.getD p none = some v ∧
      (placeCell row spans cell).2.getD p none = spans.getD p none := by
  have hfits := (findSlot_spec row cell.colspan).1
  have hout : ¬ (findSlot row cell.colspan ≤ p ∧
      p < findSlot row cell.colspan + cell.colspan) := by
    intro ⟨h1, h2⟩
    unfold fitsAt at hfits
    rw [List.all_eq_true] at hfits
    have := hfits (p - findSlot row cell.colspan) (by rw [List.mem_range]; omega)
    have heq : findSlot row cell.colspan + (p - findSlot row cell.colspan) = p := by
      omega
    rw [heq, hocc] at this
    simp at this
  constructor
  · rw [placeCell_getD_row, if_neg hout, hocc]
  · rw [placeCell_getD_span, if_neg hout]

/-- `placeCells` preserves every already-occupied column and its span. -/
theorem placeCells_preserves (cells : List Cell) :
    ∀ (row : List (Option (List Char))) (spans : List (Option SpanInfo))
      (p : Nat) (v : List Char), row.getD p none = some v →
      (placeCells (row, spans) cells).1.getD p none = some v ∧
        (placeCells (row, spans) cells).2.getD p none = spans.getD p none := by
  induction cells with
  | nil => intro row spans p v h; exact ⟨h, rfl⟩
  | cons cell rest ih =>
    intro row spans p v h
    have h1 := placeCell_preserves row spans cell p v h
    have h2 := ih (placeCell row spans cell).1 (placeCell row spans cell).2 p v h1.1
    unfold placeCells at h2 ⊢
    simp only [List.foldl_cons]
    refine ⟨h2.1, ?_⟩
    rw [h2.2, h1.2]

/-! ### Row cleanup lemmas -/

theorem dropTrailingBlanks_cons (a : List Char) (l : List (List Char)) :
    dropTrailingBlanks (a :: l) =
      if (dropTrailingBlanks l).isEmpty then (if isBlankStr a then [] else [a])
      else a :: dropTrailingBlanks l := by
  unfold dropTrailingBlanks
  rw [List.reverse_cons, List.dropWhile_append]
  by_cases h : (l.reverse.dropWhile isBlankStr).isEmpty
  · rw [if_pos h]
    rw [List.isEmpty_iff] at h
    rw [if_pos (by rw [List.isEmpty_iff, List.reverse_eq_nil_iff]; exact h)]
    by_cases hb : isBlankStr a
    · simp [List.dropWhile, hb]
    · simp [List.dropWhile, hb]
  · rw [if_neg h]
    rw [if_neg (by
      rw [List.isEmpty_iff, List.reverse_eq_nil_iff]
      rw [List.isEmpty_iff] at h
      exact h)]
    rw [List.reverse_append]
    simp

theorem isBlankStr_nil : isBlankStr [] = true := by decide

theorem dropTrailingBlanks_getD (l : List (List Char)) :
    ∀ (p : Nat) (v : List Char), isBlankStr v = false → l.getD p [] = v →
      (dropTrailingBlanks l).getD p [] = v := by
  induction l with
  | nil =>
    intro p v hv h
    simp only [List.getD_eq_getElem?_getD, List.getElem?_nil] at h
    simp only [Option.getD_none] at h
    rw [← h] at hv
    rw [isBlankStr_nil] at hv
    cases hv
  | cons a l ih =>
    intro p v hv h
    rw [dropTrailingBlanks_cons]
    cases p with
    | zero =>
      simp only [List.getD_cons_zero] at h
      subst h
      by_cases he : (dropTrailingBlanks l).isEmpty
      · simp [he, hv]
      · simp [he]
    | succ q =>
      simp only [List.getD_cons_succ] at h
      have hq := ih q v hv h
      have hne : ¬ (dropTrailingBlanks l).isEmpty := by
        intro he
        rw [List.isEmpty_iff] at he
        rw [he] at hq
        simp only [List.getD_eq_getElem?_getD, List.getElem?_nil,
          Option.getD_none] at hq
        rw [← hq, isBlankStr_nil] at hv
        cases hv
      rw [if_neg hne]
      simpa using hq

theorem getD_map_getD (l : List (Option (List Char))) (p : Nat) (v : List Char)
    (h : l.getD p none = some v) :
    (l.map (fun o => o.getD [])).getD p [] = v := by
  have hlt : p < l.length := getD_isSome_lt l p (by rw [h]; rfl)
  rw [List.getD_eq_getElem?_getD, List.getElem?_map]
  rw [List.getD_eq_getElem?_getD] at h
  cases he : l[p]? with
  | none => rw [he] at h; simp at h
  | some o =>
    rw [he] at h
    simp only [Option.getD_some] at h
    subst h
    simp

theorem any_of_getD (l : List (List Char)) (p : Nat) (v : List Char)
    (hv : isBlankStr v = false) (h : l.getD p [] = v) :
    l.any (fun col => !(isBlankStr col)) = true := by
  have hlt : p < l.length := by
    by_contra hc
    push_neg at hc
    rw [List.getD_eq_getElem?_getD, List.getElem?_eq_none hc] at h
    simp only [Option.getD_none] at h
    rw [← h, isBlankStr_nil] at hv
    cases hv
  rw [List.any_eq_true]
  refine ⟨v, ?_, by rw [hv]; rfl⟩
  rw [List.getD_eq_getElem?_getD, List.getElem?_eq_getElem hlt] at h
  simp only [Option.getD_some] at h
  rw [← h]
  exact List.getElem_mem hlt

/-- One row of propagation: an active span with a non-blank value forces a
kept output row carrying the value at its column, and the tracker entry is
decremented (freed at zero). -/
theorem processRow_propagates (spans : List (Option SpanInfo))
    (cells : List Cell) (p : Nat) (m : Nat) (v : List Char)
    (h : spans.getD p none = some ⟨m, v⟩) (hv : isBlankStr v = false) :
    (∃ out, (processRow spans cells).1 = some out ∧ out.getD p [] = v) ∧
      (processRow spans cells).2.getD p none
        = (if m - 1 = 0 then none else some ⟨m - 1, v⟩) := by
  have hrow0 : (applySpans spans).1.getD p none = some v := by
    rw [applySpans_getD_row, h]
    rfl
  have hspan0 : (applySpans spans).2.getD p none
      = (if m - 1 = 0 then none else some ⟨m - 1, v⟩) := by
    rw [applySpans_getD_span, h]
  have hpres := placeCells_preserves cells (applySpans spans).1
    (applySpans spans).2 p v hrow0
  have hpc : placeCells ((applySpans spans).1, (applySpans spans).2) cells
      = placeCells (applySpans spans) cells := by rfl
  constructor
  · have hclean := dropTrailingBlanks_getD
      ((placeCells (applySpans spans) cells).1.map (fun o => o.getD [])) p v hv
      (getD_map_getD _ p v (hpc ▸ hpres.1))
    have hkeep := any_of_getD _ p v hv hclean
    refine ⟨_, ?_, hclean⟩
    show (if _ = true then some _ else none) = _
    rw [if_pos hkeep]
  · show (placeCells (applySpans spans) cells).2.getD p none = _
    rw [← hpc, hpres.2, hspan0]

theorem processRows_cons (cells : List Cell) (rest : List (List Cell))
    (spans : List (Option SpanInfo)) :
    processRows (cells :: rest) spans
      = (processRow spans cells).1 :: processRows rest (processRow spans cells).2 := rfl

theorem spansAfter_cons (cells : List Cell) (rest : List (List Cell))
    (spans : List (Option SpanInfo)) :
    spansAfter (cells :: rest) spans
      = spansAfter rest (processRow spans cells).2 := rfl

/-- Multi-row propagation: an active span with `m` remaining rows and a
non-blank value forces the value into its column of the next
`min m (number of remaining rows)` output rows, all kept, and the tracker
entry is spent after `m` rows. -/
theorem span_propagation (m : Nat) (hm : 1 ≤ m) :
    ∀ (rows : List (List Cell)) (spans : List (Option SpanInfo))
      (p : Nat) (v : List Char),
      spans.getD p none = some ⟨m, v⟩ → isBlankStr v = false →
      (∀ k, k < m → k < rows.length →
        ∃ out, (processRows rows spans).getD k none = some out ∧
          out.getD p [] = v) ∧
      (m ≤ rows.length →
        (spansAfter (rows.take m) spans).getD p none = none) := by
  induction m with
  | zero => omega
  | succ n ih =>
    intro rows spans p v h hv
    cases rows with
    | nil =>
      constructor
      · intro k _ hk; cases (Nat.not_lt_zero k) hk
      · intro hle; simp at hle
    | cons cells rest =>
      obtain ⟨⟨out, hout, houtv⟩, hdec⟩ := processRow_propagates spans cells p (n + 1) v h hv
      by_cases hn : n = 0
      · subst hn
        refine ⟨?_, ?_⟩
        · intro k hk _
          interval_cases k
          refine ⟨out, ?_, houtv⟩
          rw [processRows_cons, hout]
          rfl
        · intro _
          rw [List.take_succ_cons, List.take_zero, spansAfter_cons]
          unfold spansAfter
          simp only [List.foldl_nil]
          simpa using hdec
      · have hn1 : 1 ≤ n := by omega
        have hdec' : (processRow spans cells).2.getD p none = some ⟨n, v⟩ := by
          rw [hdec, if_neg (by omega)]
          simp
        obtain ⟨hvals, hspent⟩ := ih hn1 rest (processRow spans cells).2 p v hdec' hv
        refine ⟨?_, ?_⟩
        · intro k hk hklen
          cases k with
          | zero =>
            refine ⟨out, ?_, houtv⟩
            rw [processRows_cons, hout]
            rfl
          | succ j =>
            have := hvals j (by omega) (by simpa using hklen)
            rw [processRows_cons]
            simpa using this
        · intro hle
          rw [List.take_succ_cons, spansAfter_cons]
          exact hspent (by simpa using hle)

/-! ## Claim C10: termination of the cell-placement scan -/

/-- C10.  The left-to-right slot search of the Table Flattener terminates
at a fitting column index: with fuel `row.length + 1`, `findSlot` returns
an index at which the whole block fits, the index never exceeds the row
length (each failed fit strictly advances the scan past an occupied
column, all of which lie below `row.length`), and placing a cell grows
the row buffer only to `max row.length (slot + colspan)` — so flattening
is a total function. -/
theorem claim_C10_slot_search_terminates :
    ∀ (row : List (Option (List Char))) (n : Nat),
      fitsAt row (findSlot row n) n = true ∧
      findSlot row n ≤ row.length ∧
      (∀ (spans : List (Option SpanInfo)) (cell : Cell),
        (placeCell row spans cell).1.length
          = max row.length (findSlot row cell.colspan + cell.colspan)) := by
  intro row n
  refine ⟨(findSlot_spec row n).1, (findSlot_spec row n).2.1, ?_⟩
  intro spans cell
  exact (placeCell_lengths row spans cell).1

/-! ## Claim C4: colspan placement and no overwriting -/

/-- C4, counterexample.  The claim asserts every cell's block shows
"exactly one non-empty column followed by colspan − 1 empty columns"; a
cell whose rendered text is empty (here `<td colspan=2></td>`) produces an
entirely empty block, so no non-empty column at all. -/
theorem claim_C4_counterexample :
    tableGridOf (.elem "table" []
      [.elem "tr" [] [.elem "td" [("colspan", "2")] [],
                      .elem "td" [] [.text (str "x")]]])
      = [[[], [], str "x"]] ∧
    ((tableGridOf (.elem "table" []
      [.elem "tr" [] [.elem "td" [("colspan", "2")] [],
                      .elem "td" [] [.text (str "x")]]])).getD 0 []).getD 0 [] = [] ∧
    ((tableGridOf (.elem "table" []
      [.elem "tr" [] [.elem "td" [("colspan", "2")] [],
                      .elem "td" [] [.text (str "x")]]])).getD 0 []).getD 1 [] = [] := by
  refine ⟨by decide, by decide, by decide⟩

/-- C4, amended.  Each cell is placed at the lowest column index whose
whole block of `colspan` columns is free (the scan jumps past occupied
columns and never lands earlier); the anchor column receives the cell's
rendered text — hence is non-empty exactly when that text is non-empty —
followed by `colspan − 1` empty-string columns; and the block never
overwrites a column already filled in that row. -/
theorem claim_C4_amended_placement :
    ∀ (row : List (Option (List Char))) (spans : List (Option SpanInfo))
      (cell : Cell), 1 ≤ cell.colspan →
      (fitsAt row (findSlot row cell.colspan) cell.colspan = true ∧
        (∀ x, x < findSlot row cell.colspan →
          fitsAt row x cell.colspan = false)) ∧
      ((placeCell row spans cell).1.getD (findSlot row cell.colspan) none
          = some cell.text ∧
        (∀ k, 1 ≤ k → k < cell.colspan →
          (placeCell row spans cell).1.getD (findSlot row cell.colspan + k) none
            = some [])) ∧
      (∀ (p : Nat) (v : List Char), row.getD p none = some v →
        (placeCell row spans cell).1.getD p none = some v) := by
  intro row spans cell hcs
  refine ⟨⟨(findSlot_spec row cell.colspan).1,
    (findSlot_spec row cell.colspan).2.2⟩, ⟨?_, ?_⟩, ?_⟩
  · rw [placeCell_getD_row, if_pos (by omega), if_pos rfl]
  · intro k h1 h2
    rw [placeCell_getD_row, if_pos (by omega), if_neg (by omega)]
  · intro p v hocc
    exact (placeCell_preserves row spans cell p v hocc).1

/-- Witness for C4 at a concrete input: a `colspan = 2` cell placed on a
row whose column 0 is already occupied lands at column 1, fills columns
1-2 with text and empty string, and leaves column 0 untouched. -/
theorem claim_C4_witness :
    fitsAt [some (str "a"), none, none]
        (findSlot [some (str "a"), none, none] 2) 2 = true ∧
    (placeCell [some (str "a"), none, none] [none, none, none]
        ⟨str "b", 2, 1⟩).1.getD (findSlot [some (str "a"), none, none] 2) none
      = some (str "b") ∧
    (placeCell [some (str "a"), none, none] [none, none, none]
        ⟨str "b", 2, 1⟩).1.getD (findSlot [some (str "a"), none, none] 2 + 1) none
      = some [] ∧
    (placeCell [some (str "a"), none, none] [none, none, none]
        ⟨str "b", 2, 1⟩).1.getD 0 none = some (str "a") := by
  have h := claim_C4_amended_placement [some (str "a"), none, none]
    [none, none, none] ⟨str "b", 2, 1⟩ (by decide)
  exact ⟨h.1.1, h.2.1.1, h.2.1.2 1 (by decide) (by decide),
    h.2.2 0 (str "a") (by decide)⟩

/-! ## Claim C3: the rowspan property -/

/-- C3, counterexample.  The claim asserts a `rowspan = N` cell produces
identical *non-empty* values in its column for exactly `N` consecutive
output rows; a `rowspan = 2` cell whose rendered text is empty (here
`<td rowspan=2></td>`) repeats the *empty* string instead, so its column
carries no non-empty value in any output row. -/
theorem claim_C3_counterexample :
    tableGridOf (.elem "table" []
      [.elem "tr" [] [.elem "td" [("rowspan", "2")] [],
                      .elem "td" [] [.text (str "x")]],
       .elem "tr" [] [.elem "td" [] [.text (str "y")]]])
      = [[[], str "x"], [[], str "y"]] ∧
    ((tableGridOf (.elem "table" []
      [.elem "tr" [] [.elem "td" [("rowspan", "2")] [],
                      .elem "td" [] [.text (str "x")]],
       .elem "tr" [] [.elem "td" [] [.text (str "y")]]])).getD 0 []).getD 0 [] = [] ∧
    ((tableGridOf (.elem "table" []
      [.elem "tr" [] [.elem "td" [("rowspan", "2")] [],
                      .elem "td" [] [.text (str "x")]],
       .elem "tr" [] [.elem "td" [] [.text (str "y")]]])).getD 1 []).getD 0 [] = [] := by
  refine ⟨by decide, by decide, by decide⟩

theorem placeCells_append (st : List (Option (List Char)) × List (Option SpanInfo))
    (pre : List Cell) (cell : Cell) (post : List Cell) :
    placeCells st (pre ++ cell :: post)
      = placeCells (placeCell (placeCells st pre).1 (placeCells st pre).2 cell)
          post := by
  unfold placeCells
  rw [List.foldl_append]
  rfl

/-- C3, amended.  A cell with `rowspan = N ≥ 2` and non-blank rendered
text, placed at column `c` of its row: that row is kept and shows the text
at column `c`; the placement registers a span with `N − 1` remaining rows
carrying the same text; the span copies the text into column `c` of each
of the next `min (N − 1) (remaining rows)` output rows, all of which are
kept; and after those `N − 1` rows the span is spent (the tracker entry at
`c` is `none`), so the mechanism never repeats the value further. -/
theorem claim_C3_amended_rowspan :
    ∀ (spans : List (Option SpanInfo)) (pre post : List Cell) (cell : Cell)
      (laterRows : List (List Cell)),
      2 ≤ cell.rowspan → 1 ≤ cell.colspan → isBlankStr cell.text = false →
      (∃ out, (processRow spans (pre ++ cell :: post)).1 = some out ∧
        out.getD (findSlot (placeCells (applySpans spans) pre).1 cell.colspan) []
          = cell.text) ∧
      (processRow spans (pre ++ cell :: post)).2.getD
          (findSlot (placeCells (applySpans spans) pre).1 cell.colspan) none
        = some ⟨cell.rowspan - 1, cell.text⟩ ∧
      (∀ k, k < cell.rowspan - 1 → k < laterRows.length →
        ∃ out,
          (processRows laterRows (processRow spans (pre ++ cell :: post)).2).getD
              k none = some out ∧
          out.getD (findSlot (placeCells (applySpans spans) pre).1 cell.colspan) []
            = cell.text) ∧
      (cell.rowspan - 1 ≤ laterRows.length →
        (spansAfter (laterRows.take (cell.rowspan - 1))
            (processRow spans (pre ++ cell :: post)).2).getD
          (findSlot (placeCells (applySpans spans) pre).1 cell.colspan) none
        = none) := by
  intro spans pre post cell laterRows hrs hcs hblank
  set mid := placeCells (applySpans spans) pre with hmid
  set c := findSlot mid.1 cell.colspan with hc
  have hrowAnchor : (placeCell mid.1 mid.2 cell).1.getD c none = some cell.text := by
    rw [placeCell_getD_row, ← hc, if_pos (by omega), if_pos rfl]
  have hspanAnchor : (placeCell mid.1 mid.2 cell).2.getD c none
      = some ⟨cell.rowspan - 1, cell.text⟩ := by
    rw [placeCell_getD_span, ← hc, if_pos (by omega), if_pos (by omega),
      if_pos rfl]
  have hdecomp : placeCells (applySpans spans) (pre ++ cell :: post)
      = placeCells (placeCell mid.1 mid.2 cell) post := by
    rw [placeCells_append, hmid]
  have hpost := placeCells_preserves post (placeCell mid.1 mid.2 cell).1
    (placeCell mid.1 mid.2 cell).2 c cell.text hrowAnchor
  have hpair : ((placeCell mid.1 mid.2 cell).1, (placeCell mid.1 mid.2 cell).2)
      = placeCell mid.1 mid.2 cell := rfl
  rw [hpair] at hpost
  have hrowFinal : (placeCells (applySpans spans) (pre ++ cell :: post)).1.getD
      c none = some cell.text := by rw [hdecomp]; exact hpost.1
  have hspanFinal : (placeCells (applySpans spans) (pre ++ cell :: post)).2.getD
      c none = some ⟨cell.rowspan - 1, cell.text⟩ := by
    rw [hdecomp, hpost.2, hspanAnchor]
  have hspanRow : (processRow spans (pre ++ cell :: post)).2.getD c none
      = some ⟨cell.rowspan - 1, cell.text⟩ := hspanFinal
  refine ⟨?_, hspanRow, ?_, ?_⟩
  · have hclean := dropTrailingBlanks_getD
      ((placeCells (applySpans spans) (pre ++ cell :: post)).1.map
        (fun o => o.getD [])) c cell.text hblank
      (getD_map_getD _ c cell.text hrowFinal)
    have hkeep := any_of_getD _ c cell.text hblank hclean
    refine ⟨_, ?_, hclean⟩
    show (if _ = true then some _ else none) = _
    rw [if_pos hkeep]
  · intro k hk hklen
    exact (span_propagation (cell.rowspan - 1) (by omega) laterRows
      (processRow spans (pre ++ cell :: post)).2 c cell.text hspanRow hblank).1
      k hk hklen
  · intro hle
    exact (span_propagation (cell.rowspan - 1) (by omega) laterRows
      (processRow spans (pre ++ cell :: post)).2 c cell.text hspanRow hblank).2
      hle

/-- Witness for C3 at a concrete input: a `rowspan = 2` cell `"A"` placed
first in its row registers a one-row span carrying `"A"`, and after the
one following row the span is spent. -/
theorem claim_C3_witness :
    (processRow [] ([] ++ (⟨str "A", 1, 2⟩ : Cell) :: [⟨str "x", 1, 1⟩])).2.getD
        (findSlot (placeCells (applySpans []) []).1 1) none
      = some ⟨1, str "A"⟩ ∧
    (spansAfter ([[(⟨str "y", 1, 1⟩ : Cell)]].take 1)
        (processRow [] ([] ++ (⟨str "A", 1, 2⟩ : Cell) :: [⟨str "x", 1, 1⟩])).2).getD
      (findSlot (placeCells (applySpans []) []).1 1) none = none := by
  have h := claim_C3_amended_rowspan [] [] [⟨str "x", 1, 1⟩] ⟨str "A", 1, 2⟩
    [[⟨str "y", 1, 1⟩]] (by decide) (by decide) (by decide)
  exact ⟨h.2.1, h.2.2.2 (by decide)⟩

/-! ## Claim C5: tables with no merged cells -/

/-- All tracker entries are `none` (no active span), index-wise. -/
def allNoneD (spans : List (Option SpanInfo)) : Prop :=
  ∀ q, spans.getD q none = none

theorem allNoneD_of_mem (spans : List (Option SpanInfo))
    (h : ∀ o ∈ spans, o = none) : allNoneD spans := by
  intro q
  by_cases hq : q < spans.length
  · rw [List.getD_eq_getElem?_getD, List.getElem?_eq_getElem hq]
    simp [h _ (List.getElem_mem hq)]
  · push_neg at hq
    rw [List.getD_eq_getElem?_getD, List.getElem?_eq_none hq]
    rfl

theorem mem_of_allNoneD (spans : List (Option SpanInfo))
    (h : allNoneD spans) : ∀ o ∈ spans, o = none := by
  intro o ho
  obtain ⟨i, hi, hget⟩ := List.getElem_of_mem ho
  have := h i
  rw [List.getD_eq_getElem?_getD, List.getElem?_eq_getElem hi, hget] at this
  simpa using this

theorem applySpans_replicate (L : Nat) :
    applySpans (List.replicate L none)
      = (List.replicate L none, List.replicate L none) := by
  induction L with
  | zero => rfl
  | succ n ih => simp [List.replicate_succ, applySpans, ih]

theorem findSlot_eq_of (row : List (Option (List Char))) (n c : Nat)
    (hfit : fitsAt row c n = true)
    (hmin : ∀ x, x < c → fitsAt row x n = false) :
    findSlot row n = c := by
  obtain ⟨h1, _, h3⟩ := findSlot_spec row n
  by_cases h : findSlot row n < c
  · rw [hmin _ h] at h1; cases h1
  · push_neg at h
    rcases Nat.eq_or_lt_of_le h with he | hlt
    · omega
    · rw [h3 c hlt] at hfit; cases hfit

theorem findSlot_simple (ts : List (List Char)) (r : Nat) :
    findSlot (ts.map some ++ List.replicate r none) 1 = ts.length := by
  apply findSlot_eq_of
  · unfold fitsAt
    rw [List.all_eq_true]
    intro k hk
    rw [List.mem_range] at hk
    interval_cases k
    rw [List.getD_eq_getElem?_getD, Nat.add_zero]
    by_cases hr : 0 < r
    · rw [List.getElem?_append_right (by simp)]
      rw [List.getElem?_replicate]
      simp [hr]
    · rw [List.getElem?_eq_none (by simp; omega)]
      rfl
  · intro x hx
    unfold fitsAt
    rw [Bool.eq_false_iff]
    intro hall
    rw [List.all_eq_true] at hall
    have := hall 0 (by rw [List.mem_range]; omega)
    rw [List.getD_eq_getElem?_getD, Nat.add_zero,
      List.getElem?_append_left (by simpa using hx), List.getElem?_map,
      List.getElem?_eq_getElem (by simpa using hx)] at this
    simp at this

theorem placeCell_simple (ts : List (List Char)) (r : Nat)
    (spans : List (Option SpanInfo)) (t : List Char)
    (hsp : allNoneD spans) :
    (placeCell (ts.map some ++ List.replicate r none) spans ⟨t, 1, 1⟩).1
      = (ts ++ [t]).map some ++ List.replicate (r - 1) none ∧
    allNoneD (placeCell (ts.map some ++ List.replicate r none) spans ⟨t, 1, 1⟩).2 := by
  constructor
  · have hc : findSlot (ts.map some ++ List.replicate r none) 1 = ts.length :=
      findSlot_simple ts r
    unfold placeCell
    show (writeRowBlock (extendRow (ts.map some ++ List.replicate r none)
        (findSlot (ts.map some ++ List.replicate r none) 1 + 1)) _ t 1) = _
    rw [hc]
    unfold writeRowBlock
    have hr1 : List.range 1 = [0] := rfl
    simp only [hr1, List.foldl_cons, List.foldl_nil, Nat.add_zero, if_pos rfl]
    cases r with
    | zero =>
      have hext : extendRow (ts.map some ++ List.replicate 0 none)
          (ts.length + 1) = ts.map some ++ [none] := by
        unfold extendRow
        simp [List.replicate_succ]
      rw [hext]
      rw [List.set_append_right _ _ (by simp)]
      simp
    | succ m =>
      have hext : extendRow (ts.map some ++ List.replicate (m + 1) none)
          (ts.length + 1) = ts.map some ++ List.replicate (m + 1) none := by
        unfold extendRow
        have : ts.length + 1 - (ts.map some ++ List.replicate (m + 1) none).length = 0 := by
          simp
        rw [this]
        simp
      rw [hext]
      rw [List.set_append_right _ _ (by simp)]
      simp [List.replicate_succ]
  · intro q
    rw [placeCell_getD_span]
    by_cases hq : findSlot (ts.map some ++ List.replicate r none) 1 ≤ q ∧
        q < findSlot (ts.map some ++ List.replicate r none) 1 + 1
    · rw [if_pos hq]
      norm_num
    · rw [if_neg hq]
      exact hsp q

theorem placeCells_simple (cells : List Cell) :
    ∀ (ts : List (List Char)) (r : Nat) (spans : List (Option SpanInfo)),
      (∀ cell ∈ cells, cell.colspan = 1 ∧ cell.rowspan = 1) →
      allNoneD spans →
      (placeCells (ts.map some ++ List.replicate r none, spans) cells).1
        = (ts ++ cells.map (fun cl => cl.text)).map some
            ++ List.replicate (r - cells.length) none ∧
      allNoneD (placeCells (ts.map some ++ List.replicate r none, spans) cells).2 := by
  induction cells with
  | nil => intro ts r spans _ hsp; simpa [placeCells] using hsp
  | cons cell rest ih =>
    intro ts r spans hcells hsp
    obtain ⟨hc1, hr1⟩ := hcells cell (by simp)
    have hcell : cell = ⟨cell.text, 1, 1⟩ := by
      cases cell; simp_all
    have hstep := placeCell_simple ts r spans cell.text hsp
    rw [← hcell] at hstep
    have hfold : placeCells (ts.map some ++ List.replicate r none, spans)
        (cell :: rest)
        = placeCells ((placeCell (ts.map some ++ List.replicate r none) spans cell).1,
            (placeCell (ts.map some ++ List.replicate r none) spans cell).2) rest := by
      unfold placeCells
      simp [List.foldl_cons]
    rw [hfold, hstep.1]
    have := ih (ts ++ [cell.text]) (r - 1)
      (placeCell (ts.map some ++ List.replicate r none) spans cell).2
      (fun c hc => hcells c (by simp [hc])) hstep.2
    constructor
    · rw [this.1]
      have harith : r - 1 - rest.length = r - (rest.length + 1) := by omega
      simp [harith]
    · exact this.2

theorem dropTrailingBlanks_solid (texts : List (List Char)) (k : Nat)
    (hne : texts ≠ []) (hnb : ∀ t ∈ texts, isBlankStr t = false) :
    dropTrailingBlanks (texts ++ List.replicate k []) = texts := by
  unfold dropTrailingBlanks
  rw [List.reverse_append, List.dropWhile_append]
  have hrep : (List.replicate k ([] : List Char)).reverse.dropWhile isBlankStr
      = [] := by
    rw [List.reverse_replicate, List.dropWhile_eq_nil_iff]
    intro a ha
    rw [List.eq_of_mem_replicate ha]
    exact isBlankStr_nil
  rw [hrep]
  simp only [List.isEmpty_nil, if_true]
  cases htr : texts.reverse with
  | nil =>
    rw [List.reverse_eq_nil_iff] at htr
    exact absurd htr hne
  | cons a as =>
    have ha : a ∈ texts := by
      rw [← List.mem_reverse, htr]
      simp
    rw [List.dropWhile_cons_of_neg (by rw [hnb a ha]; exact Bool.false_ne_true)]
    rw [← htr, List.reverse_reverse]

theorem processRow_simple (cells : List Cell) (spans : List (Option SpanInfo))
    (hsp : ∀ o ∈ spans, o = none)
    (hne : cells ≠ [])
    (hcells : ∀ cell ∈ cells, cell.colspan = 1 ∧ cell.rowspan = 1 ∧
      isBlankStr cell.text = false) :
    (processRow spans cells).1 = some (cells.map (fun cl => cl.text)) ∧
      ∀ o ∈ (processRow spans cells).2, o = none := by
  have hrepl : spans = List.replicate spans.length none :=
    List.eq_replicate_of_mem hsp
  have happ : applySpans spans
      = (List.replicate spans.length none, List.replicate spans.length none) := by
    conv_lhs => rw [hrepl]
    exact applySpans_replicate spans.length
  have hplace := placeCells_simple cells [] spans.length
    (List.replicate spans.length none)
    (fun c hc => ⟨(hcells c hc).1, (hcells c hc).2.1⟩)
    (allNoneD_of_mem _ (fun o ho => List.eq_of_mem_replicate ho))
  have hrow1 : (placeCells (applySpans spans) cells).1
      = (cells.map (fun cl => cl.text)).map some
          ++ List.replicate (spans.length - cells.length) none := by
    rw [happ]
    have : (List.replicate spans.length (none : Option (List Char)))
        = ([] : List (List Char)).map some ++ List.replicate spans.length none := by
      simp
    rw [this] at hplace ⊢
    simpa using hplace.1
  have hspans1 : allNoneD (placeCells (applySpans spans) cells).2 := by
    rw [happ]
    have : (List.replicate spans.length (none : Option (List Char)))
        = ([] : List (List Char)).map some ++ List.replicate spans.length none := by
      simp
    rw [this] at hplace
    exact hplace.2
  have hmapclean : (placeCells (applySpans spans) cells).1.map (fun o => o.getD [])
      = cells.map (fun cl => cl.text) ++ List.replicate (spans.length - cells.length) [] := by
    rw [hrow1]
    simp [List.map_map, Function.comp]
  have hcleaned : dropTrailingBlanks
      ((placeCells (applySpans spans) cells).1.map (fun o => o.getD []))
      = cells.map (fun cl => cl.text) := by
    rw [hmapclean]
    exact dropTrailingBlanks_solid _ _ (by simpa using hne)
      (by
        intro t ht
        rw [List.mem_map] at ht
        obtain ⟨cl, hcl, hclt⟩ := ht
        rw [← hclt]
        exact (hcells cl hcl).2.2)
  have hkeep : (dropTrailingBlanks
      ((placeCells (applySpans spans) cells).1.map (fun o => o.getD []))).any
        (fun col => !(isBlankStr col)) = true := by
    rw [hcleaned, List.any_eq_true]
    cases cells with
    | nil => exact absurd rfl hne
    | cons c0 restc =>
      refine ⟨c0.text, by simp, ?_⟩
      rw [(hcells c0 (by simp)).2.2]
      rfl
  constructor
  · show (if _ = true then some _ else none) = _
    rw [if_pos hkeep, hcleaned]
  · exact mem_of_allNoneD _ hspans1

/-- Grid of a table with no merged cells: one kept row per `<tr>`, holding
exactly the cell texts in order. -/
theorem processRows_no_merges (rows : List (List Cell)) :
    ∀ (spans : List (Option SpanInfo)), (∀ o ∈ spans, o = none) →
      (∀ cells ∈ rows, cells ≠ [] ∧ ∀ cell ∈ cells,
        cell.colspan = 1 ∧ cell.rowspan = 1 ∧ isBlankStr cell.text = false) →
      processRows rows spans
        = rows.map (fun cells => some (cells.map (fun cl => cl.text))) := by
  induction rows with
  | nil => intro spans _ _; rfl
  | cons cells rest ih =>
    intro spans hsp hrows
    obtain ⟨hne, hcells⟩ := hrows cells (by simp)
    obtain ⟨hrow, hspans'⟩ := processRow_simple cells spans hsp hne hcells
    rw [processRows_cons, hrow,
      ih (processRow spans cells).2 hspans'
        (fun c hc => hrows c (by simp [hc]))]
    simp

theorem pyStrip_eq_nil_iff (l : List Char) :
    pyStrip l = [] ↔ ∀ c ∈ l, isPyWS c = true := by
  constructor
  · intro h c hc
    unfold pyStrip dropWhileEnd at h
    rw [List.reverse_eq_nil_iff, List.dropWhile_eq_nil_iff] at h
    conv at hc => rw [← List.takeWhile_append_dropWhile (p := isPyWS) (l := l)]
    rw [List.mem_append] at hc
    rcases hc with hc | hc
    · exact List.mem_takeWhile_imp hc
    · exact h c (List.mem_reverse.2 hc)
  · intro h
    unfold pyStrip dropWhileEnd
    rw [List.reverse_eq_nil_iff, List.dropWhile_eq_nil_iff]
    intro a ha
    rw [List.mem_reverse] at ha
    exact h a (by
      conv => rw [← List.takeWhile_append_dropWhile (p := isPyWS) (l := l)]
      rw [List.mem_append]
      exact Or.inr ha)

theorem mem_joinSep (sep : List Char) (parts : List (List Char))
    (x : List Char) (hx : x ∈ parts) (c : Char) (hc : c ∈ x) :
    c ∈ joinSep sep parts := by
  induction parts with
  | nil => cases hx
  | cons a rest ih =>
    cases rest with
    | nil =>
      rw [List.mem_singleton] at hx
      subst hx
      simpa [joinSep] using hc
    | cons b rest2 =>
      rw [List.mem_cons] at hx
      rcases hx with hx | hx
      · subst hx
        simp [joinSep, hc]
      · simp [joinSep, ih hx]

theorem joinSep_keep (row : List (List Char)) (t : List Char) (ht : t ∈ row)
    (hnb : isBlankStr t = false) :
    ((pyStrip (joinSep (str " | ") row)).isEmpty) = false := by
  rw [Bool.eq_false_iff]
  intro he
  rw [List.isEmpty_iff] at he
  rw [pyStrip_eq_nil_iff] at he
  unfold isBlankStr at hnb
  rw [Bool.eq_false_iff] at hnb
  apply hnb
  rw [List.isEmpty_iff, pyStrip_eq_nil_iff]
  intro c hc
  exact he c (mem_joinSep _ row t ht c hc)

/-- The walker's `squeeze` helper (`html_to_text` lines 1244-1245):
`re.sub(r"[ \t\u00A0]+", " ", s.strip())`. -/
def squeeze (s : List Char) : List Char := collapseHWS (pyStrip s)

theorem reduceOption_map_some (l : List α) (f : α → β) :
    (l.map (fun a => some (f a))).reduceOption = l.map f := by
  induction l with
  | nil => rfl
  | cons a rest ih => simp [ih]

theorem filterMap_keep (grid : List (List (List Char)))
    (hkeep : ∀ row ∈ grid, (pyStrip (joinSep (str " | ") row)).isEmpty = false) :
    (grid.filterMap (fun row =>
      let line := joinSep (str " | ") row
      if (pyStrip line).isEmpty then none else some ('•' :: ' ' :: line)))
      = grid.map (fun row => '•' :: ' ' :: joinSep (str " | ") row) := by
  induction grid with
  | nil => rfl
  | cons row rest ih =>
    rw [List.filterMap_cons, List.map_cons]
    have h := hkeep row (by simp)
    simp only [h, Bool.false_eq_true, if_false]
    rw [ih (fun r hr => hkeep r (by simp [hr]))]

/-- C5, counterexample.  The claim asserts one output line per `<tr>`; a
table whose single row holds one empty cell emits no line at all (the row
is dropped as entirely blank). -/
theorem claim_C5_counterexample :
    table_to_lines (.elem "table" [] [.elem "tr" [] [.elem "td" [] []]])
      squeeze = [] ∧
    (collectTrsList (childrenOf
      (.elem "table" [] [.elem "tr" [] [.elem "td" [] []]]))).length = 1 := by
  refine ⟨by decide, by decide⟩

/-- C5, amended.  For a table with no merged cells (all parsed `colspan`
and `rowspan` equal 1), at least one direct-child cell per owned `<tr>`,
and every cell's rendered text non-blank, the grid keeps exactly one row
per `<tr>` holding the cell texts in order — so the output (after the
optional caption line) has one `"• "`-prefixed pipe-joined line per `<tr>`
whose column count equals that row's direct-child `th`/`td` count. -/
theorem claim_C5_amended_no_merges :
    ∀ (table : Node) (sq : List Char → List Char),
      (∀ cells ∈ tableCellRows table, cells ≠ [] ∧ ∀ cell ∈ cells,
        cell.colspan = 1 ∧ cell.rowspan = 1 ∧ isBlankStr cell.text = false) →
      tableGridOf table
        = (tableCellRows table).map (fun cells => cells.map (fun cl => cl.text)) ∧
      (tableGridOf table).length
        = (collectTrsList (childrenOf table)).length ∧
      (∀ i, i < (tableGridOf table).length →
        ((tableGridOf table).getD i []).length
          = ((tableCellRows table).getD i []).length) ∧
      table_to_lines table sq
        = (match findFirstTag "caption" table with
           | some cap =>
             if (sq (smart_text cap)).isEmpty then []
             else [sq (smart_text cap)]
           | none => []) ++
          (tableGridOf table).map
            (fun row => '•' :: ' ' :: joinSep (str " | ") row) := by
  intro table sq hcells
  have hgrid : tableGridOf table
      = (tableCellRows table).map (fun cells => cells.map (fun cl => cl.text)) := by
    unfold tableGridOf
    rw [processRows_no_merges (tableCellRows table) [] (by intro o ho; cases ho)
      hcells]
    exact reduceOption_map_some _ _
  have hlen : (tableGridOf table).length
      = (collectTrsList (childrenOf table)).length := by
    rw [hgrid]
    unfold tableCellRows
    simp
  refine ⟨hgrid, hlen, ?_, ?_⟩
  · intro i hi
    have hi2 : i < (tableCellRows table).length := by
      rw [hgrid] at hi
      simpa using hi
    rw [hgrid]
    rw [List.getD_eq_getElem?_getD, List.getElem?_map,
      List.getElem?_eq_getElem hi2]
    rw [List.getD_eq_getElem?_getD (tableCellRows table),
      List.getElem?_eq_getElem hi2]
    simp
  · unfold table_to_lines
    have hkeep : ∀ row ∈ tableGridOf table,
        (pyStrip (joinSep (str " | ") row)).isEmpty = false := by
      intro row hrow
      rw [hgrid, List.mem_map] at hrow
      obtain ⟨cells, hcmem, hcr⟩ := hrow
      obtain ⟨hne, hc⟩ := hcells cells hcmem
      cases hcl : cells with
      | nil => exact absurd hcl hne
      | cons c0 restc =>
        refine joinSep_keep row c0.text ?_ ((hc c0 (by rw [hcl]; simp)).2.2)
        rw [← hcr, hcl]
        simp
    rw [filterMap_keep _ hkeep]

/-- Witness for C5 at a concrete input: a 2×2 table with no merged cells
flattens to one line per row with one column per cell. -/
theorem claim_C5_witness :
    tableGridOf (.elem "table" []
      [.elem "tr" [] [.elem "td" [] [.text (str "a")],
                      .elem "td" [] [.text (str "b")]],
       .elem "tr" [] [.elem "td" [] [.text (str "c")],
                      .elem "td" [] [.text (str "d")]]])
      = (tableCellRows (.elem "table" []
          [.elem "tr" [] [.elem "td" [] [.text (str "a")],
                          .elem "td" [] [.text (str "b")]],
           .elem "tr" [] [.elem "td" [] [.text (str "c")],
                          .elem "td" [] [.text (str "d")]]])).map
          (fun cells => cells.map (fun cl => cl.text)) ∧
    (tableGridOf (.elem "table" []
      [.elem "tr" [] [.elem "td" [] [.text (str "a")],
                      .elem "td" [] [.text (str "b")]],
       .elem "tr" [] [.elem "td" [] [.text (str "c")],
                      .elem "td" [] [.text (str "d")]]])).length
      = (collectTrsList (childrenOf (.elem "table" []
          [.elem "tr" [] [.elem "td" [] [.text (str "a")],
                          .elem "td" [] [.text (str "b")]],
           .elem "tr" [] [.elem "td" [] [.text (str "c")],
                          .elem "td" [] [.text (str "d")]]]))).length := by
  have h := claim_C5_amended_no_merges (.elem "table" []
      [.elem "tr" [] [.elem "td" [] [.text (str "a")],
                      .elem "td" [] [.text (str "b")]],
       .elem "tr" [] [.elem "td" [] [.text (str "c")],
                      .elem "td" [] [.text (str "d")]]]) squeeze (by decide)
  exact ⟨h.1, h.2.1⟩

/-! ## Claim C1: idempotence of the Normalizer -/

/-- C1.  `zh_tidy` is not idempotent: on `"a \x7bx\x7d b"` the first
application removes the brace group only *after* the whitespace-collapse
step has already run, leaving the double space `"a  b"`; a second
application collapses it to `"a b"`.  (The function's own first step
exists precisely to normalize such whitespace runs, so the late
LaTeX-stripping substeps breaking it is a slip of the code, not of the
specified property.) -/
theorem claim_C1_zh_tidy_not_idempotent :
    zh_tidy (str "a \x7bx\x7d b") = str "a  b" ∧
    zh_tidy (zh_tidy (str "a \x7bx\x7d b")) = str "a b" ∧
    zh_tidy (zh_tidy (str "a \x7bx\x7d b")) ≠ zh_tidy (str "a \x7bx\x7d b") := by
  refine ⟨by decide, by decide, by decide⟩

/-- Python's substring test `pat in s`. -/
def containsSub : List Char → List Char → Bool
  | pat, [] => pat.isEmpty
  | pat, c :: cs => pat.isPrefixOf (c :: cs) || containsSub pat cs

/-! ## Label/value repair (`wiki_scrawler.py` lines 610-782) -/

/-- `_STOP_CHARS`: separators that end value collection. -/
def STOP_CHARS : List Char := str "，,、；;,)）」』】〉。."

/-- `cut_at_stop` / `consume`: strip, then cut at the first stop
character, reporting whether one was hit. -/
def cut_at_stop (s : List Char) : List Char × Bool :=
  let s := pyStrip s
  if s.isEmpty then ([], false)
  else
    let chunk := s.takeWhile (fun c => !(STOP_CHARS.contains c))
    (chunk, chunk.length < s.length)

/-- Total length of the collected parts. -/
def sumLen (parts : List (List Char)) : Nat := (parts.map List.length).sum

/-- Does this descendant match the anchor condition of
`_collect_value_after_label`: a string whose stripped text, or a tag whose
`get_text("", strip=True)`, equals the label? -/
def anchorMatches (label : List Char) : Node → Bool
  | .text s => pyStrip s == label
  | .elem t a cs => getTextStrip (.elem t a cs) == label

/-- First index of a full-width colon, else of a half-width colon. -/
def findColonIdx (s : List Char) : Option Nat :=
  match s.findIdx? (· == '：') with
  | some i => some i
  | none => s.findIdx? (· == ':')

/-- The `for node in anchor.next_elements` loop of
`_collect_value_after_label`: skip text until the first colon, then gather
text up to a stop character, a `<br>`, or the length cap. -/
def collect_loop (maxlen : Nat) : List Node → Bool → List (List Char) →
    List (List Char)
  | [], _, parts => parts
  | .text s :: rest, sawColon, parts =>
    if sawColon then
      let pr := cut_at_stop s
      let parts2 := if pr.1.isEmpty then parts else parts ++ [pr.1]
      if pr.2 then parts2
      else if maxlen * 2 < sumLen parts2 then parts2
      else collect_loop maxlen rest true parts2
    else
      match findColonIdx s with
      | none => collect_loop maxlen rest false parts
      | some pos =>
        let pr := cut_at_stop (s.drop (pos + 1))
        let parts2 := if pr.1.isEmpty then parts else parts ++ [pr.1]
        if pr.2 then parts2
        else if maxlen * 2 < sumLen parts2 then parts2
        else collect_loop maxlen rest true parts2
  | .elem t _ _ :: rest, sawColon, parts =>
    if t = "br" then parts
    else if maxlen * 2 < sumLen parts then parts
    else collect_loop maxlen rest sawColon parts

/-- `_collect_value_after_label` (lines 637-706): anchor on the first
descendant whose exact text equals the label, then collect the value after
the next colon along the subsequent nodes in document order. -/
def collect_value_after_label (el : Node) (label : List Char) :
    Option (List Char) :=
  let ds := descendantsOf el
  match ds.findIdx? (anchorMatches label) with
  | none => none
  | some i =>
    let parts := collect_loop 120 (ds.drop (i + 1)) false []
    let val := pyStrip (joinSep [' '] (parts.filter (fun p => !p.isEmpty)))
    if val.isEmpty then none else some (val.take 120)

/-- Strip only spaces (`str.strip(" ")`). -/
def stripSpaces (l : List Char) : List Char :=
  ((l.dropWhile (· == ' ')).reverse.dropWhile (· == ' ')).reverse

/-- ASCII lower-casing of one character (`str.lower()` on the class
strings below, which are ASCII). -/
def toLowerChar (c : Char) : Char :=
  if 'A' ≤ c && c ≤ 'Z' then Char.ofNat (c.toNat + 32) else c

/-- `str.lower()`. -/
def toLowerStr (l : List Char) : List Char := l.map toLowerChar

/-- Split on runs of whitespace (BeautifulSoup's tokenisation of the
multi-valued `class` attribute).  Fuel makes the recursion structural;
`length + 1` always suffices. -/
def splitWSRunsGo : Nat → List Char → List (List Char)
  | 0, _ => []
  | _, [] => []
  | fuel + 1, c :: cs =>
    if isPyWS c then splitWSRunsGo fuel (cs.dropWhile isPyWS)
    else (c :: cs.takeWhile (fun d => !isPyWS d)) ::
      splitWSRunsGo fuel (cs.drop (cs.takeWhile (fun d => !isPyWS d)).length)

/-- Whitespace-token split with sufficient fuel. -/
def splitWSRuns (l : List Char) : List (List Char) :=
  splitWSRunsGo (l.length + 1) l

/-- The class-token list of an attribute list (`node.get("class", [])`). -/
def classTokens (attrs : List (String × String)) : List (List Char) :=
  match attrs.lookup "class" with
  | some s => splitWSRuns s.data
  | none => []

/-- `" ".join(node.get("class", [])).lower()`. -/
def joinedClassesLower (attrs : List (String × String)) : List Char :=
  toLowerStr (joinSep [' '] (classTokens attrs))

/-- The remaining text after the first occurrence of `marker` (Python
`s.split(marker, 1)[1]`); `none` when absent. -/
def afterFirst (marker : List Char) : List Char → Option (List Char)
  | [] => if marker.isEmpty then some [] else none
  | c :: cs =>
    if marker.isPrefixOf (c :: cs) then some ((c :: cs).drop marker.length)
    else afterFirst marker cs

/-- The `for node in needle.next_elements` loop of
`_collect_value_after_marker`: gather until a stop character, skipping
citation/edit-section tags, capped at 1.5 × maxlen. -/
def marker_loop (maxlen : Nat) : List Node → List (List Char) → List (List Char)
  | [], parts => parts
  | .text s :: rest, parts =>
    let pr := cut_at_stop s
    let parts2 := if pr.1.isEmpty then parts else parts ++ [pr.1]
    if pr.2 then parts2
    else if 3 * maxlen < 2 * sumLen parts2 then parts2
    else marker_loop maxlen rest parts2
  | .elem _ attrs _ :: rest, parts =>
    let classes := joinedClassesLower attrs
    if containsSub (str "reference") classes ||
        containsSub (str "mw-editsection") classes then
      marker_loop maxlen rest parts
    else if 3 * maxlen < 2 * sumLen parts then parts
    else marker_loop maxlen rest parts

/-- `_collect_value_after_marker` (lines 708-759). -/
def collect_value_after_marker (el : Node) (marker : List Char) :
    Option (List Char) :=
  let ds := descendantsOf el
  match ds.findIdx? (fun d => match d with
    | .text s => containsSub marker s
    | .elem _ _ _ => false) with
  | none => none
  | some i =>
    let s := match ds.getD i (.text []) with
      | .text s => s
      | .elem _ _ _ => []
    let tail := (afterFirst marker s).getD []
    let rest := ds.drop (i + 1)
    if !tail.isEmpty then
      let pr := cut_at_stop tail
      let parts0 := if pr.1.isEmpty then ([] : List (List Char)) else [pr.1]
      if pr.2 then
        let out := pyStrip (joinSep [' '] (parts0.filter (fun p => !p.isEmpty)))
        if out.isEmpty then none else some (out.take 120)
      else
        let parts := marker_loop 120 rest parts0
        let out := stripSpaces (joinSep [' '] (parts.filter (fun p => !p.isEmpty)))
        if out.isEmpty then none else some (out.take 120)
    else
      let parts := marker_loop 120 rest []
      let out := stripSpaces (joinSep [' '] (parts.filter (fun p => !p.isEmpty)))
      if out.isEmpty then none else some (out.take 120)

/-- `_LABEL_CORE_RE`'s alternatives, in source order.  No alternative is a
prefix of another, so at most one can match at a given position and the
regex engine's first-alternative rule coincides with `List.find?`. -/
def labelList : List (List Char) :=
  [str "英語", str "英文", str "English", str "日語", str "日文",
   str "Japanese", str "韓語", str "韓文", str "法語", str "法文",
   str "德語", str "德文", str "西班牙語", str "西文", str "西語",
   str "俄語", str "俄文", str "義大利語", str "義文", str "意大利語",
   str "意文", str "葡萄牙語", str "葡文", str "拉丁語", str "拉丁文",
   str "越南語", str "越文", str "泰語", str "馬來語", str "馬來文",
   str "印尼語", str "印尼文", str "粵語", str "廣東話", str "閩南語",
   str "臺語", str "台語", str "閩南話", str "客語", str "學名",
   str "藝名", str "本名", str "原名", str "舊稱", str "又名",
   str "別名", str "別稱", str "外文"]

/-- The separator class of `_MISSING_AFTER_LABEL`'s lookahead
(`(?=\s*[，、；)）])`). -/
def MISSING_STOPS : List Char := str "，、；)）"

/-- Match `_MISSING_AFTER_LABEL` at the current position: a label, a
full-width colon, and (not consumed) optional whitespace followed by a
separator.  Returns the label and the input after the colon. -/
def tryMissingAt (s : List Char) : Option (List Char × List Char) :=
  match labelList.find? (fun l => l.isPrefixOf s) with
  | none => none
  | some l =>
    match s.drop l.length with
    | '：' :: u =>
      (match u.dropWhile isPyWS with
       | d :: _ => if MISSING_STOPS.contains d then some (l, u) else none
       | [] => none)
    | _ => none

/-- The `_repl` substitution of `fill_labels_if_missing` applied at one
match: try the anchor scan, then the same-node marker scan; keep the
original text when both fail. -/
def tryFillLabel (el : Node) (s : List Char) : Option (List Char × List Char) :=
  match tryMissingAt s with
  | none => none
  | some (l, u) =>
    let val := match collect_value_after_label el l with
      | some v => some v
      | none => collect_value_after_marker el (l ++ ['：'])
    match val with
    | some v => some (l ++ '：' :: v, u)
    | none => some (l ++ ['：'], u)

/-- `fill_labels_if_missing` (lines 768-782):
`_MISSING_AFTER_LABEL.sub(_repl, txt)`. -/
def fill_labels_if_missing (el : Node) (txt : List Char) : List Char :=
  scanSub (tryFillLabel el) txt

/-! ## Claim C6: label repair via the anchor scan -/

theorem isPrefixOf_self_append (l t : List Char) :
    l.isPrefixOf (l ++ t) = true := by
  simp

theorem containsSub_append_self (pat : List Char) :
    ∀ (x y : List Char), containsSub pat (x ++ (pat ++ y)) = true := by
  intro x
  induction x with
  | nil =>
    intro y
    rw [List.nil_append]
    cases hpy : pat ++ y with
    | nil =>
      have hp : pat = [] := (List.append_eq_nil.1 hpy).1
      subst hp
      rfl
    | cons c cs =>
      simp only [containsSub]
      rw [← hpy, isPrefixOf_self_append]
      simp
  | cons c cs ih =>
    intro y
    rw [List.cons_append]
    simp only [containsSub]
    rw [ih y]
    simp

/-- Positions at which no `_MISSING_AFTER_LABEL` alternative matches are
copied through unchanged by the substitution scan. -/
theorem tryFillLabel_none (el : Node) (s : List Char)
    (h : ∀ l ∈ labelList, l.isPrefixOf s = false) :
    tryFillLabel el s = none := by
  unfold tryFillLabel tryMissingAt
  rw [List.find?_eq_none.2 (by
    intro l hl
    rw [h l hl]
    exact Bool.false_ne_true)]

theorem scanSubGo_step_some (tryM : List Char → Option (List Char × List Char))
    (fuel : Nat) (c : Char) (cs repl rest : List Char)
    (h : tryM (c :: cs) = some (repl, rest)) :
    scanSubGo tryM (fuel + 1) (c :: cs) = repl ++ scanSubGo tryM fuel rest := by
  simp only [scanSubGo, h]

theorem scanSubGo_step_none (tryM : List Char → Option (List Char × List Char))
    (fuel : Nat) (c : Char) (cs : List Char) (h : tryM (c :: cs) = none) :
    scanSubGo tryM (fuel + 1) (c :: cs) = c :: scanSubGo tryM fuel cs := by
  simp only [scanSubGo, h]

theorem scanSubGo_skip (tryM : List Char → Option (List Char × List Char))
    (a : List Char) :
    ∀ (s : List Char) (fuel : Nat),
      (∀ i, i < a.length → tryM (a.drop i ++ s) = none) →
      a.length ≤ fuel →
      scanSubGo tryM fuel (a ++ s) = a ++ scanSubGo tryM (fuel - a.length) s := by
  induction a with
  | nil => intro s fuel _ _; simp
  | cons c cs ih =>
    intro s fuel hnone hfuel
    cases fuel with
    | zero => exact absurd hfuel (by simp)
    | succ f =>
      have h0 := hnone 0 (by simp)
      rw [List.drop_zero, List.cons_append] at h0
      rw [List.cons_append, scanSubGo_step_none tryM f c (cs ++ s) h0]
      rw [ih s f
        (fun i hi => by simpa using hnone (i + 1) (by simpa using Nat.succ_lt_succ hi))
        (by simpa using hfuel)]
      simp [Nat.succ_sub_succ]

/-- C6, counterexample.  The paragraph's flattened text is `"學名：，"`,
its DOM holds a node with exact text `"學名"` followed in document order by
`"Oncorhynchus masou formosanus"` before the next comma — every hypothesis
of the claim — yet the anchor scan also collects the stray text `"junk "`
sitting between the colon and the value, so the repaired text is
`"學名：junk Oncorhynchus masou formosanus，"` and does **not** contain the
claimed `"學名：Oncorhynchus masou formosanus，"`. -/
theorem claim_C6_counterexample :
    fill_labels_if_missing
      (.elem "p" [] [.elem "a" [] [.text (str "學名")], .text (str "："),
        .text (str "junk "), .text (str "Oncorhynchus masou formosanus"),
        .text (str "，")])
      (str "學名：，")
      = str "學名：junk Oncorhynchus masou formosanus，" ∧
    containsSub (str "學名：Oncorhynchus masou formosanus，")
      (fill_labels_if_missing
        (.elem "p" [] [.elem "a" [] [.text (str "學名")], .text (str "："),
          .text (str "junk "), .text (str "Oncorhynchus masou formosanus"),
          .text (str "，")])
        (str "學名：，")) = false ∧
    (descendantsOf (.elem "p" [] [.elem "a" [] [.text (str "學名")],
        .text (str "："), .text (str "junk "),
        .text (str "Oncorhynchus masou formosanus"),
        .text (str "，")])).findIdx? (anchorMatches (str "學名")) = some 0 := by
  refine ⟨by decide, by decide, by decide⟩

/-- C6, amended.  If the paragraph's flattened text contains `"學名："`
immediately followed by `"，"` (with no label-pattern match starting
earlier in the text), and the anchor scan on the paragraph's DOM collects
exactly `v` — i.e. the text between the first colon after the anchor and
the next stop character is precisely the value, with no stray text — then
the repaired text contains `"學名：" ++ v ++ "，"`. -/
theorem claim_C6_amended_anchor_repair :
    ∀ (el : Node) (a b v : List Char),
      collect_value_after_label el (str "學名") = some v →
      (∀ i, i < a.length → ∀ l ∈ labelList,
        l.isPrefixOf (a.drop i ++ (str "學名：，" ++ b)) = false) →
      containsSub (str "學名：" ++ v ++ str "，")
        (fill_labels_if_missing el (a ++ (str "學名：，" ++ b))) = true := by
  intro el a b v hcol hnolabel
  unfold fill_labels_if_missing scanSub
  rw [scanSubGo_skip (tryFillLabel el) a (str "學名：，" ++ b)
    ((a ++ (str "學名：，" ++ b)).length + 1)
    (fun i hi => tryFillLabel_none el _ (fun l hl => hnolabel i hi l hl))
    (by simp; omega)]
  have hfuel : (a ++ (str "學名：，" ++ b)).length + 1 - a.length
      = (str "學名：，" ++ b).length + 1 := by
    simp
    omega
  rw [hfuel]
  have htry : tryFillLabel el ('學' :: '名' :: '：' :: '，' :: b)
      = some (str "學名" ++ '：' :: v, '，' :: b) := by
    unfold tryFillLabel
    have hmiss : tryMissingAt ('學' :: '名' :: '：' :: '，' :: b)
        = some (str "學名", '，' :: b) := rfl
    rw [hmiss]
    show (match (match collect_value_after_label el (str "學名") with
      | some v => some v
      | none => collect_value_after_marker el (str "學名" ++ ['：'])) with
      | some v => some (str "學名" ++ '：' :: v, '，' :: b)
      | none => some (str "學名" ++ ['：'], '，' :: b)) = _
    rw [hcol]
  have htry2 : tryFillLabel el ('，' :: b) = none := by
    apply tryFillLabel_none
    intro l hl
    fin_cases hl <;> rfl
  have hs : str "學名：，" ++ b = '學' :: '名' :: '：' :: '，' :: b := rfl
  have hlen : (str "學名：，" ++ b).length + 1 = (b.length + 4) + 1 := by
    rw [hs]
    simp
  rw [hlen, hs,
    scanSubGo_step_some (tryFillLabel el) (b.length + 4) '學'
      ('名' :: '：' :: '，' :: b) (str "學名" ++ '：' :: v) ('，' :: b) htry,
    show b.length + 4 = (b.length + 3) + 1 from rfl,
    scanSubGo_step_none (tryFillLabel el) (b.length + 3) '，' b htry2]
  have heq : (str "學名" ++ '：' :: v)
        ++ ('，' :: scanSubGo (tryFillLabel el) (b.length + 3) b)
      = (str "學名：" ++ v ++ str "，")
        ++ scanSubGo (tryFillLabel el) (b.length + 3) b := by
    show (['學', '名'] ++ '：' :: v)
        ++ ('，' :: scanSubGo (tryFillLabel el) (b.length + 3) b)
      = (['學', '名', '：'] ++ v ++ ['，'])
        ++ scanSubGo (tryFillLabel el) (b.length + 3) b
    simp
  rw [heq, ← List.append_assoc a]
  rw [show a ++ (str "學名：" ++ v ++ str "，")
        ++ scanSubGo (tryFillLabel el) (b.length + 3) b
      = a ++ ((str "學名：" ++ v ++ str "，")
        ++ scanSubGo (tryFillLabel el) (b.length + 3) b) from by
    rw [List.append_assoc]]
  exact containsSub_append_self _ a _

/-- Witness for C6 at the source's own example: `<a>學名</a>：<i><span
lang="la">Oncorhynchus masou formosanus</span></i>，…` repaired inside
running text. -/
theorem claim_C6_witness :
    containsSub (str "學名：" ++ str "Oncorhynchus masou formosanus" ++ str "，")
      (fill_labels_if_missing
        (.elem "p" [] [.elem "a" [] [.text (str "學名")], .text (str "："),
          .elem "i" [] [.elem "span" [("lang", "la")]
            [.text (str "Oncorhynchus masou formosanus")]],
          .text (str "，後略")])
        (str "臺灣鱒（" ++ (str "學名：，" ++ str "）末"))) = true :=
  claim_C6_amended_anchor_repair
    (.elem "p" [] [.elem "a" [] [.text (str "學名")], .text (str "："),
      .elem "i" [] [.elem "span" [("lang", "la")]
        [.text (str "Oncorhynchus masou formosanus")]],
      .text (str "，後略")])
    (str "臺灣鱒（") (str "）末") (str "Oncorhynchus masou formosanus")
    (by decide) (by decide)

/-! ## The section walker of `html_to_text` (`wiki_scrawler.py` lines 1235-1367) -/

/-- One step of `re.sub(r"\[.*?\]", "", s)`: a literal `[`, then the
shortest run of non-newline characters up to a literal `]`, removed. -/
def tryBracketRef (s : List Char) : Option (List Char × List Char) :=
  match s with
  | '[' :: rest =>
    let pre := rest.takeWhile (fun c => !(c = ']') && !(c = '\n'))
    match rest.drop pre.length with
    | ']' :: after => some ([], after)
    | _ => none
  | _ => none

/-- `norm_title` (line 1241): drop `[...]` reference markers, then strip. -/
def norm_title (s : List Char) : List Char :=
  pyStrip (scanSub tryBracketRef s)

/-- One step of Python `str.replace(lit, "")` for a non-empty literal. -/
def tryDropLit (lit : List Char) (s : List Char) :
    Option (List Char × List Char) :=
  if lit.isPrefixOf s then some ([], s.drop lit.length) else none

/-- The normalized comparison key of a heading:
`t.replace("###", "").replace("##", "").strip()` (lines 1256 and 1388). -/
def headingKey (t : List Char) : List Char :=
  pyStrip (scanSub (tryDropLit (str "##")) (scanSub (tryDropLit (str "###")) t))

/-- An element returned by `root.find_all([...], recursive=True)` together
with the two ancestor facts the walker queries: `find_parent("table")`
and `find_parent("table", class_="multicol")`. -/
structure XElem where
  node : Node
  inTable : Bool
  inMulticolTable : Bool

/-- The tags collected by the walker's `find_all` (line 1235). -/
def isWalkTag (t : String) : Bool :=
  t = "h2" || t = "h3" || t = "p" || t = "ul" || t = "ol" || t = "dl" ||
    t = "table"

mutual

/-- Pre-order collection of the walker's elements below one node, carrying
the ancestor-table flags down. -/
def collectXNode (inTbl inMul : Bool) : Node → List XElem
  | .text _ => []
  | .elem t a cs =>
    let self := if isWalkTag t then [⟨.elem t a cs, inTbl, inMul⟩] else []
    let inTbl2 := inTbl || t = "table"
    let inMul2 := inMul ||
      (t = "table" && (classTokens a).any (fun tok => tok = str "multicol"))
    self ++ collectXList inTbl2 inMul2 cs

/-- Pre-order collection over a forest. -/
def collectXList (inTbl inMul : Bool) : List Node → List XElem
  | [] => []
  | n :: ns => collectXNode inTbl inMul n ++ collectXList inTbl inMul ns

end

/-- The mutable state of the walker loop: the output lines, the set of
already-processed heading keys, and the skip flag. -/
structure WalkSt where
  lines : List (List Char)
  processed : List (List Char)
  skipping : Bool
deriving DecidableEq

/-- The blank separator `add_title_if_new` inserts when the output is
non-empty and does not already end in a blank line (line 1261). -/
def preBlank (lines : List (List Char)) : List (List Char) :=
  if lines ≠ [] ∧ lines.getLast? ≠ some [] then [[]] else []

/-- `add_title_if_new` (lines 1250-1264): skip empty or already-seen
titles; otherwise record the key and emit an optional blank separator and
the prefixed title line, reporting whether anything was added. -/
def add_title_if_new (st : WalkSt) (title pfx : List Char) : Bool × WalkSt :=
  if title = [] then (false, st)
  else
    let normalized := headingKey title
    if st.processed.any (fun k => k = normalized) then (false, st)
    else
      (true, { lines := st.lines ++ preBlank st.lines ++ [pfx ++ title],
               processed := normalized :: st.processed,
               skipping := st.skipping })

/-- The sentence-final punctuation of the title heuristic (line 1296). -/
def endsWithSentencePunct (txt : List Char) : Bool :=
  match txt.getLast? with
  | some c => (str "。.！!？?").contains c
  | none => false

/-- `is_likely_title` (lines 1294-1298). -/
def is_likely_title (txt : List Char) : Bool :=
  decide (txt.length < 50) && !(endsWithSentencePunct txt) &&
    !(txt.any (fun c => (str "，,、；;:：").contains c))

/-- Does this dd contain a descendant table (`child.find("table")`)? -/
def hasDescTable (n : Node) : Bool :=
  (descendantsOf n).any (fun d => tagIs d "table")

/-- The blank-separated title insertion of `process_multicol_table`
(lines 551-553). -/
def mcAddTitle (lines : List (List Char)) (t : List Char) :
    List (List Char) :=
  lines ++ preBlank lines ++ [t]

/-- One element of a multicol td (lines 544-579): h3-h6 become separated
titles, dl contributes its dt descendants as `### ` titles, ul/ol
contribute `• ` items from their direct li children. -/
def mcStep (squeeze : List Char → List Char) (lines : List (List Char))
    (element : Node) : List (List Char) :=
  if tagIs element "h3" || tagIs element "h4" || tagIs element "h5" ||
      tagIs element "h6" then
    let title := squeeze (smart_text element)
    if title = [] then lines else mcAddTitle lines title
  else if tagIs element "dl" then
    ((descendantsOf element).filter (fun n => tagIs n "dt")).foldl
      (fun ls dt =>
        let t := squeeze (smart_text dt)
        if t = [] then ls else mcAddTitle ls (str "### " ++ t)) lines
  else if tagIs element "ul" || tagIs element "ol" then
    lines ++ ((childrenOf element).filter (fun n => tagIs n "li")).filterMap
      (fun li =>
        let t := squeeze (smart_text li)
        if t = [] then none else some (str "• " ++ t))
  else lines

/-- `process_multicol_table` (lines 534-581): fold the handler over the
h3-h6/dl/ul/ol descendants of every td descendant in document order. -/
def process_multicol_table (table : Node) (squeeze : List Char → List Char) :
    List (List Char) :=
  ((descendantsOf table).filter (fun n => tagIs n "td")).foldl
    (fun ls td =>
      ((descendantsOf td).filter (fun n =>
        tagIs n "h3" || tagIs n "h4" || tagIs n "h5" || tagIs n "h6" ||
        tagIs n "dl" || tagIs n "ul" || tagIs n "ol")).foldl
        (mcStep squeeze) ls) []

/-- The `• `-prefixed items of a ul/ol from its direct li children
(lines 1311-1317). -/
def listItems (el : Node) : List (List Char) :=
  ((childrenOf el).filter (fun c => tagIs c "li")).filterMap (fun li =>
    let t := squeeze (smart_text li)
    if t = [] then none else some (str "• " ++ t))

/-- The lines of a dl from its direct dt/dd children (lines 1323-1336):
dt as a `### ` title, dd as a paragraph unless it contains a table. -/
def dlLines (el : Node) : List (List Char) :=
  ((childrenOf el).filter (fun c => tagIs c "dt" || tagIs c "dd")).filterMap
    (fun child =>
      if tagIs child "dt" then
        let t := squeeze (smart_text child)
        if t = [] then none else some (str "### " ++ t)
      else if hasDescTable child then none
      else
        let t := squeeze (smart_text child)
        if t = [] then none else some t)

/-- One iteration of the walker loop (`wiki_scrawler.py` lines 1266-1353),
dispatching on the element's tag with the skip flag and ancestor-table
guards of the source. -/
def walkStep (exclude : List (List Char)) (st : WalkSt) (xe : XElem) :
    WalkSt :=
  let el := xe.node
  if tagIs el "h2" then
    let title := norm_title (smart_text el)
    if exclude.any (fun key => containsSub key title) then
      { st with skipping := true }
    else
      let st1 := { st with skipping := false }
      let r := add_title_if_new st1 title (str "## ")
      if r.1 then { r.2 with lines := r.2.lines ++ [[]] } else r.2
  else if tagIs el "h3" then
    if st.skipping then st
    else if xe.inMulticolTable then st
    else (add_title_if_new st (norm_title (smart_text el)) (str "### ")).2
  else if st.skipping then st
  else if tagIs el "p" then
    let txt := squeeze (smart_text el)
    if txt = [] then st
    else if is_likely_title txt then { st with lines := st.lines ++ [txt] }
    else { st with lines := st.lines ++ [fill_labels_if_missing el txt] }
  else if tagIs el "ul" || tagIs el "ol" then
    if xe.inTable then st
    else { st with lines := st.lines ++ listItems el }
  else if tagIs el "dl" then
    if xe.inTable then st
    else { st with lines := st.lines ++ dlLines el }
  else if tagIs el "table" then
    if xe.inTable then st
    else
      let classes := joinedClassesLower (attrsOf el)
      if (["infobox", "navbox", "ambox", "mbox", "messagebox"].map str).any
          (fun cls => containsSub cls classes) then st
      else if containsSub (str "multicol") classes then
        { st with lines := st.lines ++ process_multicol_table el squeeze }
      else
        { st with lines := st.lines ++ table_to_lines el squeeze }
  else st

/-- The walker loop over the collected elements. -/
def walk (exclude : List (List Char)) (st : WalkSt) (els : List XElem) :
    WalkSt :=
  els.foldl (walkStep exclude) st

/-! ## Post-processing passes (`wiki_scrawler.py` lines 1370-1447) -/

/-- The body of `remove_duplicate_headings` (lines 1382-1399): drop a
heading line whose normalized key equals the previous heading's; any
non-blank non-heading line resets the tracker. -/
def rdh_go (last : Option (List Char)) : List (List Char) → List (List Char)
  | [] => []
  | line :: rest =>
    let stripped := pyStrip line
    if (str "###").isPrefixOf stripped || (str "##").isPrefixOf stripped then
      let normalized := headingKey stripped
      if some normalized = last then rdh_go last rest
      else line :: rdh_go (some normalized) rest
    else
      line :: rdh_go (if stripped = [] then last else none) rest

/-- `remove_duplicate_headings` (lines 1370-1401). -/
def remove_duplicate_headings (text : List Char) : List Char :=
  joinNl (rdh_go none (splitOnNl text))

/-- One step of `text.replace(t1 ++ t2, t1 ++ "\n\n" ++ t2)`. -/
def tryPairSplit (t1 t2 : List Char) (s : List Char) :
    Option (List Char × List Char) :=
  if (t1 ++ t2).isPrefixOf s then
    some (t1 ++ str "\n\n" ++ t2, s.drop (t1 ++ t2).length)
  else none

/-- The five concatenated-title pairs of lines 1409-1415. -/
def titlePairs : List (List Char × List Char) :=
  [(str "影音作品", str "其他音樂錄影帶"),
   (str "個人生活", str "感情狀況"),
   (str "演藝經歷", str "音樂作品"),
   (str "作品列表", str "音樂作品"),
   (str "獲獎記錄", str "個人榮譽")]

/-- `separate_concatenated_titles` (lines 1404-1424). -/
def separate_concatenated_titles (text : List Char) : List Char :=
  titlePairs.foldl
    (fun text pr =>
      if containsSub (pr.1 ++ pr.2) text then
        scanSub (tryPairSplit pr.1 pr.2) text
      else text) text

/-- One step of the whitespace-tolerant archive patterns of lines
1436-1437: opening paren, `\s*`-separated literal chunks, closing
paren. -/
def tryArchWs (l r : Char) (s : List Char) :
    Option (List Char × List Char) :=
  match s with
  | c :: rest =>
    if c = l then
      (dropPre (str "頁面存檔備份") (rest.dropWhile isPyWS)).bind fun s2 =>
        match s2.dropWhile isPyWS with
        | '，' :: s4 =>
          (dropPre (str "存於") (s4.dropWhile isPyWS)).bind fun s6 =>
            (dropPre (str "網際網路檔案館") (s6.dropWhile isPyWS)).bind
              fun s8 =>
                match s8.dropWhile isPyWS with
                | c2 :: s10 => if c2 = r then some ([], s10) else none
                | [] => none
        | _ => none
    else none
  | [] => none

/-- One step of `re.sub(r"\n\s*\n\s*\n", "\n\n", text)`: a newline whose
following whitespace run holds at least two more newlines; the match runs
through the last newline of that run. -/
def tryNlGap (s : List Char) : Option (List Char × List Char) :=
  match s with
  | '\n' :: rest =>
    let w := rest.takeWhile isPyWS
    if 2 ≤ (w.filter (fun c => c = '\n')).length then
      let tailAfter := (w.reverse.takeWhile (fun c => !(c = '\n'))).length
      some (str "\n\n", rest.drop (w.length - tailAfter))
    else none
  | _ => none

/-- One step of `re.sub(r" +", " ", text)`: a maximal run of ASCII spaces
becomes a single space. -/
def trySpaceRun (s : List Char) : Option (List Char × List Char) :=
  match s with
  | ' ' :: rest => some ([' '], rest.dropWhile (fun c => c = ' '))
  | _ => none

/-- `remove_archive_links` (lines 1427-1447): the four archive-note
patterns, then the blank-run and space-run compressions. -/
def remove_archive_links (text : List Char) : List Char :=
  let t1 := scanSub (tryDropLit (str "（頁面存檔備份，存於網際網路檔案館）")) text
  let t2 := scanSub (tryDropLit (str "(頁面存檔備份，存於網際網路檔案館)")) t1
  let t3 := scanSub (tryArchWs '（' '）') t2
  let t4 := scanSub (tryArchWs '(' ')') t3
  scanSub trySpaceRun (scanSub tryNlGap t4)

/-- The document pipeline of `html_to_text` after noise removal (lines
1235-1367): walk the collected elements, join, run the three repair
passes, and normalize with `zh_tidy`. -/
def html_to_text_core (exclude : List (List Char)) (root : Node) :
    List Char :=
  let st := walk exclude ⟨[], [], false⟩
    (collectXList false false (childrenOf root))
  zh_tidy (remove_archive_links (separate_concatenated_titles
    (remove_duplicate_headings (joinNl st.lines))))

/-! ## Claim C8: the empty-output failure of `process_one` -/

/-- The output validation of `process_one` (`wiki_scrawler.py` lines
1514-1516): after assembly, normalization and the label fallback, raise
`RuntimeError(f"抓取的文本長度為 0：[title]")` when the stripped text is
empty; otherwise processing continues with the text (which is then
written out). -/
def process_one_validate (actual_title text : List Char) :
    Except (List Char) (List Char) :=
  if (pyStrip text).length = 0 then
    .error (str "抓取的文本長度為 0：" ++ actual_title)
  else .ok text

theorem splitOnNl_ne_nil (text : List Char) : splitOnNl text ≠ [] := by
  induction text with
  | nil => simp [splitOnNl]
  | cons c cs ih =>
    by_cases h : c = '\n'
    · simp [splitOnNl, h]
    · simp only [splitOnNl, h, if_neg]
      cases hs : splitOnNl cs with
      | nil => simp
      | cons l ls => simp

theorem splitOnNl_nl (cs : List Char) :
    splitOnNl ('\n' :: cs) = [] :: splitOnNl cs := by
  simp [splitOnNl]

theorem splitOnNl_cons_match (c : Char) (cs : List Char) (h : ¬c = '\n')
    (l : List Char) (ls : List (List Char)) (hs : splitOnNl cs = l :: ls) :
    splitOnNl (c :: cs) = (c :: l) :: ls := by
  simp [splitOnNl, h, hs]

theorem splitOnNl_forall (p : Char → Prop) (text : List Char) :
    (∀ l ∈ splitOnNl text, ∀ c ∈ l, p c) ↔ (∀ c ∈ text, c = '\n' ∨ p c) := by
  induction text with
  | nil => simp [splitOnNl]
  | cons c cs ih =>
    by_cases h : c = '\n'
    · subst h
      rw [splitOnNl_nl]
      constructor
      · intro hyp d hd
        rw [List.mem_cons] at hd
        rcases hd with hd | hd
        · exact Or.inl hd
        · exact (ih.1 (fun l hl => hyp l (List.mem_cons_of_mem _ hl))) d hd
      · intro hyp l hl
        rw [List.mem_cons] at hl
        rcases hl with hl | hl
        · subst hl; intro d hd; cases hd
        · exact ih.2 (fun d hd => hyp d (List.mem_cons_of_mem _ hd)) l hl
    · cases hs : splitOnNl cs with
      | nil => exact absurd hs (splitOnNl_ne_nil cs)
      | cons l ls =>
        rw [splitOnNl_cons_match c cs h l ls hs]
        rw [hs] at ih
        constructor
        · intro hyp d hd
          rw [List.mem_cons] at hd
          rcases hd with hd | hd
          · subst hd
            exact Or.inr (hyp (d :: l) (List.mem_cons_self _ _) d
              (List.mem_cons_self _ _))
          · refine ih.1 ?_ d hd
            intro l2 hl2
            rw [List.mem_cons] at hl2
            rcases hl2 with hl2 | hl2
            · subst hl2
              intro e he
              exact hyp (c :: l2) (List.mem_cons_self _ _) e
                (List.mem_cons_of_mem _ he)
            · exact hyp l2 (List.mem_cons_of_mem _ hl2)
        · intro hyp l2 hl2
          rw [List.mem_cons] at hl2
          rcases hl2 with hl2 | hl2
          · subst hl2
            intro e he
            rw [List.mem_cons] at he
            rcases he with he | he
            · subst he
              rcases hyp e (List.mem_cons_self _ _) with hnl | hp
              · exact absurd hnl h
              · exact hp
            · exact ih.2 (fun d hd => hyp d (List.mem_cons_of_mem _ hd)) l
                (List.mem_cons_self _ _) e he
          · exact ih.2 (fun d hd => hyp d (List.mem_cons_of_mem _ hd)) l2
              (List.mem_cons_of_mem _ hl2)

theorem isBlankStr_iff (l : List Char) :
    isBlankStr l = true ↔ ∀ c ∈ l, isPyWS c = true := by
  unfold isBlankStr
  rw [List.isEmpty_iff]
  exact pyStrip_eq_nil_iff l

/-- C8.  `process_one` raises the distinguishable empty-output error
exactly when the fully assembled and normalized text has zero non-blank
lines; conversely a run that passes the check returns the text unchanged
with non-empty stripped content (which is then written out). -/
theorem claim_C8_empty_output_failure :
    ∀ (title text : List Char),
      ((∀ l ∈ splitOnNl text, isBlankStr l = true) ↔
        process_one_validate title text
          = .error (str "抓取的文本長度為 0：" ++ title)) ∧
      (∀ out, process_one_validate title text = .ok out →
        out = text ∧ pyStrip text ≠ []) := by
  intro title text
  have hkey : (∀ l ∈ splitOnNl text, isBlankStr l = true) ↔ pyStrip text = [] := by
    rw [pyStrip_eq_nil_iff]
    constructor
    · intro h c hc
      have := (splitOnNl_forall (fun c => isPyWS c = true) text).1
        (fun l hl c hc => (isBlankStr_iff l).1 (h l hl) c hc) c hc
      rcases this with hnl | hws
      · subst hnl; rfl
      · exact hws
    · intro h l hl
      rw [isBlankStr_iff]
      exact fun c hc =>
        ((splitOnNl_forall (fun c => isPyWS c = true) text).2
          (fun c hc => Or.inr (h c hc)) l hl) c hc
  constructor
  · rw [hkey]
    unfold process_one_validate
    constructor
    · intro h
      rw [if_pos (by rw [h]; rfl)]
    · intro h
      by_cases hz : (pyStrip text).length = 0
      · exact List.length_eq_zero.1 hz
      · rw [if_neg hz] at h
        cases h
  · intro out hout
    unfold process_one_validate at hout
    by_cases hz : (pyStrip text).length = 0
    · rw [if_pos hz] at hout
      cases hout
    · rw [if_neg hz] at hout
      cases hout
      exact ⟨rfl, by
        intro hnil
        rw [hnil] at hz
        exact hz rfl⟩

/-- Witness for C8: a whitespace-only document raises the error; a
one-character document passes and keeps its non-empty text. -/
theorem claim_C8_witness :
    process_one_validate (str "t") (str " \n ")
      = .error (str "抓取的文本長度為 0：" ++ str "t") ∧
    (str "x" = str "x" ∧ pyStrip (str "x") ≠ []) := by
  refine ⟨((claim_C8_empty_output_failure (str "t") (str " \n ")).1).mp
    (by decide), ?_⟩
  exact (claim_C8_empty_output_failure (str "t") (str "x")).2 (str "x") rfl

/-! ## Claims C9 and C2: the heading contract and section exclusion -/

/-- The C2 reference document: an excluded 參考資料 section with three
paragraphs, then the 個人生活 section with one paragraph. -/
def refDoc : Node := Node.elem "div" []
  [Node.elem "h2" [] [Node.text (str "參考資料")],
   Node.elem "p" [] [Node.text (str "參考一")],
   Node.elem "p" [] [Node.text (str "參考二")],
   Node.elem "p" [] [Node.text (str "參考三")],
   Node.elem "h2" [] [Node.text (str "個人生活")],
   Node.elem "p" [] [Node.text (str "他於2000年結婚。")]]

/-- C9, counterexample: a level-2 heading at the very start of the
document is emitted with no blank line before it (the walker only adds
the leading blank when output already exists), so the claimed
blank/heading/blank emission does not hold. -/
theorem claim_C9_counterexample :
    (walk [] ⟨[], [], false⟩ (collectXList false false
        [Node.elem "h2" [] [Node.text (str "個人生活")]])).lines
      = [str "## 個人生活", []] := by decide

/-- C9, amended: a level-2 heading whose normalized title is non-empty,
matches no excluded keyword and has not been emitted before clears the
skip flag and appends a blank separator (exactly when output exists and
does not already end blank), the `## `-prefixed heading line, and a
trailing blank line, recording the heading's key. -/
theorem claim_C9_amended_h2_emission :
    ∀ (exclude : List (List Char)) (st : WalkSt) (el : Node) (tf mf : Bool),
      tagIs el "h2" = true →
      exclude.any (fun key =>
        containsSub key (norm_title (smart_text el))) = false →
      norm_title (smart_text el) ≠ [] →
      st.processed.any (fun k =>
        k = headingKey (norm_title (smart_text el))) = false →
      walkStep exclude st ⟨el, tf, mf⟩
        = { lines := st.lines ++ preBlank st.lines ++
              [str "## " ++ norm_title (smart_text el), []],
            processed := headingKey (norm_title (smart_text el))
              :: st.processed,
            skipping := false } := by
  intro exclude st el tf mf htag hexc htitle hproc
  simp [walkStep, add_title_if_new, htag, hexc, htitle, hproc]

/-- Witness for C9: on a non-empty output state with the skip flag set, a
fresh 個人生活 heading resets the flag and emits separator, heading and
trailing blank. -/
theorem claim_C9_witness :
    walkStep [str "參考資料"] ⟨[str "前文"], [], true⟩
        ⟨Node.elem "h2" [] [Node.text (str "個人生活")], false, false⟩
      = ⟨[str "前文", [], str "## 個人生活", []], [str "個人生活"], false⟩ := by
  rw [claim_C9_amended_h2_emission [str "參考資料"] ⟨[str "前文"], [], true⟩
    (Node.elem "h2" [] [Node.text (str "個人生活")]) false false
    (by decide) (by decide) (by decide) (by decide)]
  decide

theorem walkStep_skipping (exclude : List (List Char)) (st : WalkSt)
    (xe : XElem) (htag : tagIs xe.node "h2" = false)
    (hskip : st.skipping = true) : walkStep exclude st xe = st := by
  simp [walkStep, htag, hskip]

theorem walkStep_excluded_h2 (exclude : List (List Char)) (st : WalkSt)
    (xe : XElem) (htag : tagIs xe.node "h2" = true)
    (hexc : exclude.any (fun key =>
      containsSub key (norm_title (smart_text xe.node))) = true) :
    walkStep exclude st xe = { st with skipping := true } := by
  simp [walkStep, htag, hexc]

theorem walk_cons (exclude : List (List Char)) (st : WalkSt) (x : XElem)
    (xs : List XElem) :
    walk exclude st (x :: xs) = walk exclude (walkStep exclude st x) xs := rfl

theorem walk_skip_all (exclude : List (List Char)) (st : WalkSt)
    (hskip : st.skipping = true) (mids rest : List XElem)
    (hm : ∀ m ∈ mids, tagIs m.node "h2" = false) :
    walk exclude st (mids ++ rest) = walk exclude st rest := by
  induction mids with
  | nil => rfl
  | cons m ms ih =>
    rw [List.cons_append, walk_cons,
      walkStep_skipping exclude st m (hm m (by simp)) hskip]
    exact ih (fun x hx => hm x (by simp [hx]))

set_option maxRecDepth 16384 in
/-- C2, section exclusion: (i) while the skip flag is set every non-h2
element is discarded without changing the state; (ii) an h2 whose
normalized title contains an excluded keyword sets the flag, so the walk
of it and any following non-h2 elements equals the walk of the remainder
from the flagged state; (iii) on the reference document with 參考資料
excluded, the full pipeline yields exactly the 個人生活 section: its
heading and paragraph appear and neither the excluded heading nor its
paragraphs do. -/
theorem claim_C2_section_exclusion :
    (∀ (exclude : List (List Char)) (st : WalkSt) (xe : XElem),
        tagIs xe.node "h2" = false → st.skipping = true →
        walkStep exclude st xe = st) ∧
    (∀ (exclude : List (List Char)) (st : WalkSt) (e : XElem)
        (mids rest : List XElem),
        tagIs e.node "h2" = true →
        exclude.any (fun key =>
          containsSub key (norm_title (smart_text e.node))) = true →
        (∀ m ∈ mids, tagIs m.node "h2" = false) →
        walk exclude st (e :: (mids ++ rest))
          = walk exclude { st with skipping := true } rest) ∧
    (html_to_text_core [str "參考資料"] refDoc
        = str "## 個人生活\n\n他於2000年結婚。" ∧
      containsSub (str "個人生活")
        (html_to_text_core [str "參考資料"] refDoc) = true ∧
      containsSub (str "他於2000年結婚。")
        (html_to_text_core [str "參考資料"] refDoc) = true ∧
      containsSub (str "參考資料")
        (html_to_text_core [str "參考資料"] refDoc) = false ∧
      containsSub (str "參考一")
        (html_to_text_core [str "參考資料"] refDoc) = false ∧
      containsSub (str "參考二")
        (html_to_text_core [str "參考資料"] refDoc) = false ∧
      containsSub (str "參考三")
        (html_to_text_core [str "參考資料"] refDoc) = false) := by
  refine ⟨fun exclude st xe h1 h2 => walkStep_skipping exclude st xe h1 h2,
    fun exclude st e mids rest htag hexc hm => ?_, ?_⟩
  · rw [walk_cons, walkStep_excluded_h2 exclude st e htag hexc]
    exact walk_skip_all exclude _ rfl mids rest hm
  · have heq : html_to_text_core [str "參考資料"] refDoc
        = str "## 個人生活\n\n他於2000年結婚。" := by decide
    exact ⟨heq, by rw [heq]; decide, by rw [heq]; decide, by rw [heq]; decide,
      by rw [heq]; decide, by rw [heq]; decide, by rw [heq]; decide⟩

/-- Witness for C2: the skip lemma at a paragraph, the walk lemma on a
one-paragraph excluded section, and a pipeline-output fact. -/
theorem claim_C2_witness :
    walkStep [] ⟨[], [], true⟩
        ⟨Node.elem "p" [] [Node.text (str "x")], false, false⟩
      = ⟨[], [], true⟩ ∧
    walk [str "參考資料"] ⟨[], [], false⟩
        (⟨Node.elem "h2" [] [Node.text (str "參考資料")], false, false⟩ ::
          ([⟨Node.elem "p" [] [Node.text (str "y")], false, false⟩] ++ []))
      = walk [str "參考資料"] ⟨[], [], true⟩ [] ∧
    containsSub (str "個人生活")
      (html_to_text_core [str "參考資料"] refDoc) = true := by
  exact ⟨claim_C2_section_exclusion.1 [] ⟨[], [], true⟩
      ⟨Node.elem "p" [] [Node.text (str "x")], false, false⟩ (by decide) rfl,
    claim_C2_section_exclusion.2.1 [str "參考資料"] ⟨[], [], false⟩
      ⟨Node.elem "h2" [] [Node.text (str "參考資料")], false, false⟩
      [⟨Node.elem "p" [] [Node.text (str "y")], false, false⟩] []
      (by decide) (by decide) (by decide),
    claim_C2_section_exclusion.2.2.2.1⟩

end WikiScraper
